import Mathlib

/-!
Verification development for the `julio` feature-registry tool.

We shallowly embed the descriptor-validation / path-normalization pipeline and
the combined-store decomposition engine of `src/julio/_utils.py`:

* `Yaml` models parsed YAML values (Python dicts are association lists in
  insertion order, as in CPython).
* `makeAbsolutePath`, `adjustPaths` model `_make_absolute_path` / `_adjust_paths`.
* `parseYaml` models `_parse_yaml`.
* `featureYamlFromMeta` models `_feature_yaml_from_meta`.
* `processHdf5` / `processFeatures` model `_process_hdf5` / `process_features`,
  with the filesystem as an explicit association of paths to file contents and
  the datalad `ds.save` call recorded as a boolean event.
* A small explicit-heap semantics (`Heap`, `featureYamlFromMetaH`) re-embeds
  `_feature_yaml_from_meta` at the level of Python object references in order
  to reason about in-place mutation of the input record.

Python exceptions are modelled with `Except Err`.
-/

namespace Julio

/-- Model of a parsed YAML value (as produced by `yaml.load`). Python `dict`s
are modelled as association lists in insertion order with string keys. -/
inductive Yaml where
  | null : Yaml
  | str (s : String) : Yaml
  | int (n : Int) : Yaml
  | bool (b : Bool) : Yaml
  | list (xs : List Yaml) : Yaml
  | map (kvs : List (String × Yaml)) : Yaml
  deriving Repr

/-- Python exceptions / `RuntimeError`s raised by the julio core. -/
inductive Err where
  | keyError (k : String) : Err
  | typeError : Err
  | attributeError : Err
  | missingSection (s : String) : Err
  | unknownSection (s : String) : Err
  | missingStorageURI : Err
  | storageNotFound (uri : String) : Err
  | storageReadError : Err
  | unsupportedFormat (ext : String) : Err
  deriving Repr, DecidableEq

/-- A Python dict with string keys: association list in insertion order. -/
abbrev Dict := List (String × Yaml)

/-! ### Generic association-list operations (Python `dict` semantics) -/

/-- `d[k]` lookup: first (and in a real dict, only) binding of `k`. -/
def alookup {α : Type} : List (String × α) → String → Option α
  | [], _ => none
  | (k', v) :: rest, k => if k' = k then some v else alookup rest k

/-- `d[k] = v`: replace in place if the key exists (keeping its position,
as CPython dicts do), else append. -/
def aset {α : Type} : List (String × α) → String → α → List (String × α)
  | [], k, v => [(k, v)]
  | (k', v') :: rest, k, v =>
    if k' = k then (k, v) :: rest else (k', v') :: aset rest k v

/-- `del d[k]` / the removal part of `d.pop(k)`: drop the first binding. -/
def aremove {α : Type} : List (String × α) → String → List (String × α)
  | [], _ => []
  | (k', v') :: rest, k => if k' = k then rest else (k', v') :: aremove rest k

/-- `list(d.keys())`. -/
abbrev akeys {α : Type} (l : List (String × α)) : List String := l.map Prod.fst

/-- `d.pop(k)` with no default: `KeyError` when the key is absent. -/
def dpopE {α : Type} (l : List (String × α)) (k : String) :
    Except Err (α × List (String × α)) :=
  match alookup l k with
  | some v => .ok (v, aremove l k)
  | none => .error (.keyError k)

@[simp] theorem alookup_nil {α : Type} (k : String) :
    alookup ([] : List (String × α)) k = none := rfl

@[simp] theorem alookup_cons {α : Type} (k' : String) (v : α) (rest : List (String × α))
    (k : String) :
    alookup ((k', v) :: rest) k = if k' = k then some v else alookup rest k := rfl

theorem alookup_aset_self {α : Type} (l : List (String × α)) (k : String) (v : α) :
    alookup (aset l k v) k = some v := by
  induction l with
  | nil => simp [aset]
  | cons hd tl ih =>
    obtain ⟨k', v'⟩ := hd
    by_cases h : k' = k <;> simp [aset, h, ih]

theorem alookup_aset_ne {α : Type} (l : List (String × α)) (k k' : String) (v : α)
    (h : k' ≠ k) : alookup (aset l k v) k' = alookup l k' := by
  induction l with
  | nil => simp [aset, alookup, Ne.symm h]
  | cons hd tl ih =>
    obtain ⟨k₀, v₀⟩ := hd
    by_cases h0 : k₀ = k
    · subst h0
      simp [aset, alookup, Ne.symm h]
    · simp [aset, h0, alookup, ih]

theorem aset_of_lookup_eq {α : Type} (l : List (String × α)) (k : String) (v : α)
    (h : alookup l k = some v) : aset l k v = l := by
  induction l with
  | nil => simp [alookup] at h
  | cons hd tl ih =>
    obtain ⟨k₀, v₀⟩ := hd
    by_cases h0 : k₀ = k
    · subst h0
      simp [alookup] at h
      simp [aset, h]
    · simp [alookup, h0] at h
      simp [aset, h0, ih h]

theorem alookup_aremove_ne {α : Type} (l : List (String × α)) (k k' : String)
    (h : k' ≠ k) : alookup (aremove l k) k' = alookup l k' := by
  induction l with
  | nil => simp [aremove]
  | cons hd tl ih =>
    obtain ⟨k₀, v₀⟩ := hd
    by_cases h0 : k₀ = k
    · subst h0
      simp [aremove, alookup, Ne.symm h]
    · simp [aremove, h0, alookup, ih]

theorem aremove_of_lookup_none {α : Type} (l : List (String × α)) (k : String)
    (h : alookup l k = none) : aremove l k = l := by
  induction l with
  | nil => simp [aremove]
  | cons hd tl ih =>
    obtain ⟨k₀, v₀⟩ := hd
    by_cases h0 : k₀ = k
    · simp [alookup, h0] at h
    · simp [alookup, h0] at h
      simp [aremove, h0, ih h]

theorem alookup_aremove_none {α : Type} (l : List (String × α)) (k k' : String)
    (h : alookup l k' = none) : alookup (aremove l k) k' = none := by
  by_cases hk : k' = k
  · subst hk
    rw [aremove_of_lookup_none l k' h]
    exact h
  · rw [alookup_aremove_ne l k k' hk]
    exact h

theorem alookup_eq_none_iff {α : Type} (l : List (String × α)) (k : String) :
    alookup l k = none ↔ k ∉ akeys l := by
  induction l with
  | nil => simp [akeys]
  | cons hd tl ih =>
    obtain ⟨k₀, v₀⟩ := hd
    by_cases h0 : k₀ = k
    · subst h0
      simp [alookup, akeys]
    · simp [alookup, h0, akeys, Ne.symm h0, ih]

theorem aremove_sublist {α : Type} (l : List (String × α)) (k : String) :
    (aremove l k).Sublist l := by
  induction l with
  | nil => simp [aremove]
  | cons hd tl ih =>
    obtain ⟨k₀, v₀⟩ := hd
    by_cases h0 : k₀ = k
    · simp [aremove, h0]
    · simp only [aremove, h0, if_false]
      exact List.Sublist.cons₂ _ ih

theorem nodup_akeys_aremove {α : Type} (l : List (String × α)) (k : String)
    (h : (akeys l).Nodup) : (akeys (aremove l k)).Nodup := by
  have hs : (akeys (aremove l k)).Sublist (akeys l) :=
    (aremove_sublist l k).map Prod.fst
  exact h.sublist hs

theorem alookup_aremove_self_of_nodup {α : Type} (l : List (String × α)) (k : String)
    (h : (akeys l).Nodup) : alookup (aremove l k) k = none := by
  induction l with
  | nil => simp [aremove]
  | cons hd tl ih =>
    obtain ⟨k₀, v₀⟩ := hd
    simp only [akeys, List.map_cons, List.nodup_cons] at h
    by_cases h0 : k₀ = k
    · subst h0
      simp only [aremove, if_pos rfl]
      rw [alookup_eq_none_iff]
      exact h.1
    · simp only [aremove, h0, if_false, alookup]
      simp [h0, ih h.2]

theorem akeys_aset_of_mem {α : Type} (l : List (String × α)) (k : String) (v : α)
    (h : (alookup l k).isSome) : akeys (aset l k v) = akeys l := by
  induction l with
  | nil => simp [alookup] at h
  | cons hd tl ih =>
    obtain ⟨k₀, v₀⟩ := hd
    by_cases h0 : k₀ = k
    · subst h0
      simp [aset, akeys]
    · simp [alookup, h0] at h
      simp only [aset, h0, if_false, akeys, List.map_cons]
      exact congrArg _ (ih h)

theorem akeys_aset_of_none {α : Type} (l : List (String × α)) (k : String) (v : α)
    (h : alookup l k = none) : akeys (aset l k v) = akeys l ++ [k] := by
  induction l with
  | nil => simp [aset, akeys]
  | cons hd tl ih =>
    obtain ⟨k₀, v₀⟩ := hd
    by_cases h0 : k₀ = k
    · simp [alookup, h0] at h
    · simp [alookup, h0] at h
      simp only [aset, h0, if_false, akeys, List.map_cons, List.cons_append]
      exact congrArg _ (ih h)

theorem nodup_akeys_aset {α : Type} (l : List (String × α)) (k : String) (v : α)
    (h : (akeys l).Nodup) : (akeys (aset l k v)).Nodup := by
  cases hl : alookup l k with
  | none =>
    rw [akeys_aset_of_none l k v hl]
    have hk : k ∉ akeys l := (alookup_eq_none_iff l k).mp hl
    simp [List.nodup_append, h, hk]
  | some w =>
    rw [akeys_aset_of_mem l k v (by simp [hl])]
    exact h

/-! ### Path model

POSIX paths as used by `pathlib`. A path string is split into `/`-separated
components; `Path(...)` construction drops empty components and `"."`
components; `Path.is_absolute()` is "starts with `/`"; `base / p` concatenates
components when `p` is relative; `Path.resolve()` prefixes the current working
directory when the path is still relative and then collapses `".."` lexically
(symlinks are not modelled). `cwd` is passed as a component list. -/

/-- Split a character list at `'/'` (like `str.split("/")`). -/
def splitChars : List Char → List (List Char)
  | [] => [[]]
  | c :: rest =>
    if c = '/' then [] :: splitChars rest
    else
      match splitChars rest with
      | [] => [[c]]
      | g :: gs => (c :: g) :: gs

/-- Join groups with `'/'`. -/
def interChars : List (List Char) → List Char
  | [] => []
  | [g] => g
  | g :: gs => g ++ '/' :: interChars gs

/-- The components of a path string, as `pathlib` keeps them: empty components
and `"."` are dropped at construction. -/
def pathComps (s : String) : List (List Char) :=
  (splitChars s.data).filter (fun g => g ≠ [] && g ≠ ['.'])

/-- `PurePosixPath.is_absolute()`. -/
def isAbs (s : String) : Bool :=
  match s.data with
  | '/' :: _ => true
  | _ => false

/-- One step of lexical `..`-collapsing over an absolute component stack. -/
def resolveStep (stack : List (List Char)) (c : List Char) : List (List Char) :=
  if c = [] ∨ c = ['.'] then stack
  else if c = ['.', '.'] then stack.dropLast
  else stack ++ [c]

/-- Lexical normalization of an absolute component list (`Path.resolve()`
without symlinks: `..` pops, `..` above the root is dropped). -/
def resolveAbs (cs : List (List Char)) : List (List Char) :=
  cs.foldl resolveStep []

/-- Render an absolute component list back to a string (`str(Path(...))`). -/
def renderAbs (cs : List (List Char)) : String :=
  ⟨'/' :: interChars cs⟩

/-- Model of `_make_absolute_path(path, base_path)` from `src/julio/_utils.py`:
`Path(path)`; if not absolute, `base_path / path`; then `str(path.resolve())`,
with `cwd` the interpreter's current directory used by `resolve()` for
still-relative paths. -/
def makeAbsolutePath (cwd : List (List Char)) (path base : String) : String :=
  if isAbs path then renderAbs (resolveAbs (pathComps path))
  else if isAbs base then renderAbs (resolveAbs (pathComps base ++ pathComps path))
  else renderAbs (resolveAbs (cwd ++ pathComps base ++ pathComps path))

/-- A path component that survives `resolveAbs`: nonempty, not `.`, not `..`,
and slash-free. -/
def cleanComp (g : List Char) : Prop :=
  g ≠ [] ∧ g ≠ ['.'] ∧ g ≠ ['.', '.'] ∧ '/' ∉ g

theorem splitChars_ne_nil (l : List Char) : splitChars l ≠ [] := by
  cases l with
  | nil => simp [splitChars]
  | cons c rest =>
    by_cases h : c = '/'
    · simp [splitChars, h]
    · simp only [splitChars, h, if_false]
      cases splitChars rest <;> simp

theorem no_slash_of_mem_splitChars (l : List Char) :
    ∀ g ∈ splitChars l, '/' ∉ g := by
  induction l with
  | nil =>
    intro g hg
    simp only [splitChars, List.mem_singleton] at hg
    subst hg
    simp
  | cons c rest ih =>
    intro g hg
    simp only [splitChars] at hg
    by_cases h : c = '/'
    · rw [if_pos h] at hg
      rcases List.mem_cons.mp hg with rfl | hg'
      · simp
      · exact ih g hg'
    · rw [if_neg h] at hg
      cases hsc : splitChars rest with
      | nil => exact absurd hsc (splitChars_ne_nil rest)
      | cons g₀ gs =>
        rw [hsc] at hg
        rcases List.mem_cons.mp hg with rfl | hg'
        · intro hmem
          rcases List.mem_cons.mp hmem with hc | hc
          · exact h hc.symm
          · exact ih g₀ (by rw [hsc]; exact List.mem_cons_self _ _) hc
        · exact ih g (by rw [hsc]; exact List.mem_cons_of_mem _ hg')

theorem no_slash_of_mem_pathComps (s : String) (g : List Char)
    (hg : g ∈ pathComps s) : '/' ∉ g :=
  no_slash_of_mem_splitChars s.data g (List.mem_of_mem_filter hg)

theorem splitChars_append_slash (g : List Char) (xs : List Char)
    (hg : '/' ∉ g) : splitChars (g ++ '/' :: xs) = g :: splitChars xs := by
  induction g with
  | nil => simp [splitChars]
  | cons c g' ih =>
    have hc : c ≠ '/' := fun h => hg (h ▸ List.mem_cons_self _ _)
    have hg' : '/' ∉ g' := fun h => hg (List.mem_cons_of_mem _ h)
    simp only [List.cons_append, splitChars, hc, if_false, List.append_eq]
    rw [ih hg']

theorem splitChars_no_slash (g : List Char) (hg : '/' ∉ g) :
    splitChars g = [g] := by
  induction g with
  | nil => simp [splitChars]
  | cons c g' ih =>
    have hc : c ≠ '/' := fun h => hg (h ▸ List.mem_cons_self _ _)
    have hg' : '/' ∉ g' := fun h => hg (List.mem_cons_of_mem _ h)
    simp only [splitChars, hc, if_false]
    rw [ih hg']

theorem splitChars_interChars (gs : List (List Char))
    (hne : gs ≠ []) (hs : ∀ g ∈ gs, '/' ∉ g) :
    splitChars (interChars gs) = gs := by
  induction gs with
  | nil => exact absurd rfl hne
  | cons g gs' ih =>
    cases gs' with
    | nil =>
      simp only [interChars]
      exact splitChars_no_slash g (hs g (List.mem_cons_self _ _))
    | cons g₂ gs'' =>
      have hstep : interChars (g :: g₂ :: gs'') = g ++ '/' :: interChars (g₂ :: gs'') := rfl
      rw [hstep, splitChars_append_slash g _ (hs g (List.mem_cons_self _ _))]
      rw [ih (by simp) (fun x hx => hs x (List.mem_cons_of_mem _ hx))]

theorem resolveAbs_append_clean_mem (cs : List (List Char)) :
    ∀ stack : List (List Char),
      (∀ g ∈ cs, '/' ∉ g) → (∀ g ∈ stack, cleanComp g) →
      ∀ g ∈ cs.foldl resolveStep stack, cleanComp g := by
  induction cs with
  | nil =>
    intro stack _ hst g hg
    exact hst g hg
  | cons c cs' ih =>
    intro stack hcs hst g hg
    simp only [List.foldl_cons] at hg
    refine ih (resolveStep stack c) (fun x hx => hcs x (List.mem_cons_of_mem _ hx)) ?_ g hg
    intro x hx
    unfold resolveStep at hx
    by_cases h1 : c = [] ∨ c = ['.']
    · rw [if_pos h1] at hx
      exact hst x hx
    · rw [if_neg h1] at hx
      by_cases h2 : c = ['.', '.']
      · rw [if_pos h2] at hx
        exact hst x (List.dropLast_sublist stack |>.mem hx)
      · rw [if_neg h2] at hx
        rcases List.mem_append.mp hx with hx | hx
        · exact hst x hx
        · have hxc : x = c := by simpa using hx
          subst hxc
          push_neg at h1
          exact ⟨h1.1, h1.2, h2, hcs x (List.mem_cons_self _ _)⟩

theorem cleanComp_of_mem_resolveAbs (cs : List (List Char))
    (hcs : ∀ g ∈ cs, '/' ∉ g) :
    ∀ g ∈ resolveAbs cs, cleanComp g :=
  resolveAbs_append_clean_mem cs [] hcs (by simp)

theorem foldl_resolveStep_clean (cs : List (List Char))
    (hcs : ∀ g ∈ cs, cleanComp g) :
    ∀ stack, cs.foldl resolveStep stack = stack ++ cs := by
  induction cs with
  | nil => simp
  | cons c cs' ih =>
    intro stack
    have hc := hcs c (List.mem_cons_self _ _)
    have hstep : resolveStep stack c = stack ++ [c] := by
      unfold resolveStep
      rw [if_neg (by push_neg; exact ⟨hc.1, hc.2.1⟩), if_neg hc.2.2.1]
    simp only [List.foldl_cons, hstep]
    rw [ih (fun x hx => hcs x (List.mem_cons_of_mem _ hx)) (stack ++ [c])]
    simp

theorem resolveAbs_of_clean (cs : List (List Char))
    (hcs : ∀ g ∈ cs, cleanComp g) : resolveAbs cs = cs := by
  unfold resolveAbs
  rw [foldl_resolveStep_clean cs hcs []]
  simp

theorem isAbs_renderAbs (cs : List (List Char)) : isAbs (renderAbs cs) = true := by
  simp [isAbs, renderAbs]

theorem pathComps_renderAbs (cs : List (List Char))
    (hcs : ∀ g ∈ cs, cleanComp g) : pathComps (renderAbs cs) = cs := by
  have hrw : pathComps (renderAbs cs) =
      (splitChars ('/' :: interChars cs)).filter (fun g => g ≠ [] && g ≠ ['.']) := rfl
  rw [hrw]
  have h1 : splitChars ('/' :: interChars cs) = [] :: splitChars (interChars cs) := by
    simp [splitChars]
  rw [h1]
  cases cs with
  | nil => simp [interChars, splitChars]
  | cons g gs =>
    rw [splitChars_interChars (g :: gs) (by simp)
      (fun x hx => (hcs x hx).2.2.2)]
    have hstep : ∀ x ∈ g :: gs, (x ≠ [] && x ≠ ['.']) = true := by
      intro x hx
      have h := hcs x hx
      simp [h.1, h.2.1]
    simp [List.filter_eq_self.mpr hstep]
    constructor
    · exact ⟨(hcs g (List.mem_cons_self _ _)).1, (hcs g (List.mem_cons_self _ _)).2.1⟩
    · intro a ha
      exact ⟨(hcs a (List.mem_cons_of_mem _ ha)).1, (hcs a (List.mem_cons_of_mem _ ha)).2.1⟩

/-- The output of `makeAbsolutePath` is a fixed point: making an
already-absolutized path absolute again (any base) changes nothing. -/
theorem makeAbsolutePath_idem (cwd : List (List Char)) (path base base' : String)
    (hcwd : ∀ g ∈ cwd, '/' ∉ g) :
    makeAbsolutePath cwd (makeAbsolutePath cwd path base) base' =
      makeAbsolutePath cwd path base := by
  have key : ∀ cs : List (List Char), (∀ g ∈ cs, '/' ∉ g) →
      makeAbsolutePath cwd (renderAbs (resolveAbs cs)) base' =
        renderAbs (resolveAbs cs) := by
    intro cs hcs
    have hclean := cleanComp_of_mem_resolveAbs cs hcs
    unfold makeAbsolutePath
    rw [if_pos (isAbs_renderAbs _), pathComps_renderAbs _ hclean,
      resolveAbs_of_clean _ hclean]
  unfold makeAbsolutePath
  by_cases h1 : isAbs path
  · rw [if_pos h1]
    exact key _ (no_slash_of_mem_pathComps path)
  · rw [if_neg h1]
    by_cases h2 : isAbs base
    · rw [if_pos h2]
      refine key _ ?_
      intro g hg
      rcases List.mem_append.mp hg with hg | hg
      · exact no_slash_of_mem_pathComps base g hg
      · exact no_slash_of_mem_pathComps path g hg
    · rw [if_neg h2]
      refine key _ ?_
      intro g hg
      rcases List.mem_append.mp hg with hg | hg
      · rcases List.mem_append.mp hg with hg | hg
        · exact hcwd g hg
        · exact no_slash_of_mem_pathComps base g hg
      · exact no_slash_of_mem_pathComps path g hg

/-! ### `_adjust_paths` -/

/-- `s.endswith(suffix)` (structurally recursive so that concrete instances
reduce definitionally). -/
def strEndsWith (s suffix : String) : Bool :=
  suffix.data.reverse.isPrefixOf s.data.reverse

/-- `s.startswith(pre)`. -/
def strStartsWith (s pre : String) : Bool :=
  pre.data.isPrefixOf s.data

/-- Python `list(x)` as used in `_adjust_paths` for a non-list `with` value:
iterating a string yields its characters as one-character strings; iterating a
dict yields its keys; non-iterables raise `TypeError`. -/
def listCoerce : Yaml → Except Err (List Yaml)
  | .list xs => .ok xs
  | .str s => .ok (s.data.map (fun c => Yaml.str ⟨[c]⟩))
  | .map m => .ok (m.map (fun kv => Yaml.str kv.1))
  | _ => .error .typeError

/-- The `workdir` branch of `_adjust_paths` (lines 165-173): a string is
replaced by its absolute resolved form, otherwise `data["workdir"]["path"]`
is replaced (`KeyError`/`TypeError` when that subscript fails). -/
def stageWorkdir (cwd : List (List Char)) (base : String) (data : Dict) :
    Except Err Dict :=
  match alookup data "workdir" with
  | none => .ok data
  | some (.str s) => .ok (aset data "workdir" (.str (makeAbsolutePath cwd s base)))
  | some (.map m) =>
    match alookup m "path" with
    | some (.str p) =>
      .ok (aset data "workdir"
        (.map (aset m "path" (.str (makeAbsolutePath cwd p base)))))
    | some _ => .error .typeError
    | none => .error (.keyError "path")
  | some _ => .error .typeError

/-- Per-entry rewriting in the `with` branch (lines 178-182): entries ending
in `.py` are absolutized, other strings pass through; non-strings have no
`.endswith` (`AttributeError`). -/
def adjustModule (cwd : List (List Char)) (base : String) (w : Yaml) :
    Except Err Yaml :=
  match w with
  | .str s =>
    .ok (if strEndsWith s ".py" then .str (makeAbsolutePath cwd s base) else .str s)
  | _ => .error .attributeError

/-- The `mods` accumulation loop of `_adjust_paths` (lines 177-183): stops at
the first entry that raises. -/
def mapME (f : Yaml → Except Err Yaml) : List Yaml → Except Err (List Yaml)
  | [] => .ok []
  | w :: ws =>
    match f w with
    | .error e => .error e
    | .ok w' =>
      match mapME f ws with
      | .error e => .error e
      | .ok ws' => .ok (w' :: ws')

/-- `if not isinstance(data["with"], list): data["with"] = list(data["with"])`
(lines 175-176). -/
def coerceWith (w : Yaml) : Except Err (List Yaml) :=
  match w with
  | .list xs => .ok xs
  | other => listCoerce other

/-- The `with` branch of `_adjust_paths` (lines 174-183), including the
`data["with"] = list(data["with"])` coercion for non-list values. -/
def stageWith (cwd : List (List Char)) (base : String) (data : Dict) :
    Except Err Dict :=
  match alookup data "with" with
  | none => .ok data
  | some w =>
    match coerceWith w with
    | .error e => .error e
    | .ok ws =>
      match mapME (adjustModule cwd base) ws with
      | .error e => .error e
      | .ok mods => .ok (aset data "with" (.list mods))

/-- The unconditional `storage.uri` rewrite of `_adjust_paths`
(lines 184-186). -/
def stageStorage (cwd : List (List Char)) (base : String) (data : Dict) :
    Except Err Dict :=
  match alookup data "storage" with
  | none => .error (.keyError "storage")
  | some (.map sm) =>
    match alookup sm "uri" with
    | some (.str u) =>
      .ok (aset data "storage"
        (.map (aset sm "uri" (.str (makeAbsolutePath cwd u base)))))
    | some _ => .error .typeError
    | none => .error (.keyError "uri")
  | some _ => .error .typeError

/-- Model of `_adjust_paths(data, yaml_path)`; `base` is
`yaml_path.parent`. -/
def adjustPaths (cwd : List (List Char)) (data : Dict) (base : String) :
    Except Err Dict :=
  match stageWorkdir cwd base data with
  | .error e => .error e
  | .ok d1 =>
    match stageWith cwd base d1 with
    | .error e => .error e
    | .ok d2 => stageStorage cwd base d2

/-! ### Filesystem and `_parse_yaml` -/

/-- Content of a file on disk: a YAML dump, an HDF5 container (a map from
`title` to payload, as `h5io` exposes it), or an opaque blob. -/
inductive FData where
  | yamlFile (v : Yaml) : FData
  | h5File (entries : List (String × Yaml)) : FData
  | blob : FData
  deriving Repr

/-- The filesystem: absolute path → file content. -/
abbrev FS := List (String × FData)

/-- `open(p, "w")` followed by a full dump: truncate/create. -/
def fsWrite (fs : FS) (p : String) (d : FData) : FS := aset fs p d

/-- `Path(p).exists()`. -/
def fsHas (fs : FS) (p : String) : Bool := (alookup fs p).isSome

/-- `PurePath(s).suffix`: the final component's extension from its last dot,
empty when the dot is leading, trailing or absent. -/
def pathSuffix (s : String) : String :=
  let name := (pathComps s).getLastD []
  let revTail := name.reverse.takeWhile (fun c => c ≠ '.')
  if revTail.length + 1 < name.length ∧ revTail ≠ [] then ⟨'.' :: revTail.reverse⟩
  else ""

/-- `data["storage"]["uri"]` where a string is expected (`Path(...)`,
`.endswith(...)`): `KeyError` on missing keys, `TypeError` otherwise. -/
def getUri (d : Yaml) : Except Err String :=
  match d with
  | .map m =>
    match alookup m "storage" with
    | none => .error (.keyError "storage")
    | some (.map sm) =>
      match alookup sm "uri" with
      | some (.str u) => .ok u
      | some _ => .error .typeError
      | none => .error (.keyError "uri")
    | some _ => .error .typeError
  | _ => .error .typeError

def mandatorySections : List String := ["workdir", "datagrabber", "markers", "storage"]

def optionalSections : List String := ["with", "preprocess", "queue"]

/-- The first mandatory section missing from the parsed contents
(the validation loop at lines 215-220). -/
def firstMissing (m : Dict) : List String → Option String
  | [] => none
  | s :: rest => if (alookup m s).isSome then firstMissing m rest else some s

/-- The first top-level key outside `mandatory + optional`
(the validation loop at lines 222-227). -/
def firstUnknown : List String → Option String
  | [] => none
  | k :: rest =>
    if (mandatorySections ++ optionalSections).contains k then firstUnknown rest
    else some k

/-- Python `needle in haystack` for strings: substring test. -/
def isSubChars (needle : List Char) : List Char → Bool
  | [] => needle.isEmpty
  | c :: rest => needle.isPrefixOf (c :: rest) || isSubChars needle rest

/-- Python `"uri" in contents["storage"]`: key test for dicts, membership for
lists, substring test for strings, `TypeError` otherwise. -/
def pyContains (container : Yaml) (k : String) : Except Err Bool :=
  match container with
  | .map m => .ok (alookup m k).isSome
  | .list xs => .ok (xs.any (fun v => match v with | .str s => s = k | _ => false))
  | .str s => .ok (isSubChars k.data s.data)
  | _ => .error .typeError

/-- Model of `_parse_yaml(yaml_path)`. `contents` is the value returned by
`yaml.load(yaml_path)`, `base` is `yaml_path.parent` and `fs` is the disk
state used by the storage-existence check. -/
def parseYaml (cwd : List (List Char)) (contents : Yaml) (base : String)
    (fs : FS) : Except Err Dict := do
  let m ← match contents with
    | .map m => Except.ok m
    | _ => Except.error Err.attributeError
  match firstMissing m mandatorySections with
  | some s => Except.error (Err.missingSection s)
  | none =>
  match firstUnknown (akeys m) with
  | some k => Except.error (Err.unknownSection k)
  | none => do
    let st ← match alookup m "storage" with
      | some st => Except.ok st
      | none => Except.error (Err.keyError "storage")
    let hasUri ← pyContains st "uri"
    if hasUri then do
      let m2 ← adjustPaths cwd m base
      let u ← getUri (.map m2)
      if fsHas fs u then
        match alookup m2 "elements" with
        | some .null => Except.ok (aremove m2 "elements")
        | _ => Except.ok m2
      else Except.error (Err.storageNotFound u)
    else Except.error Err.missingStorageURI

/-! ### `_feature_yaml_from_meta` -/

/-- Python `.copy()`: shallow copy; only containers have it
(`AttributeError` on scalars/None). In the value model a copy is the value
itself; the heap model below tracks the allocation. -/
def pycopy : Yaml → Except Err Yaml
  | .list xs => .ok (.list xs)
  | .map m => .ok (.map m)
  | _ => .error .attributeError

/-- `d[k]` with `KeyError` on a missing key. -/
def getD (m : Dict) (k : String) : Except Err Yaml :=
  match alookup m k with
  | some v => .ok v
  | none => .error (.keyError k)

/-- `a in ("PatternDataGrabber", "PatternDataladDataGrabber")`. -/
def isPatternClass (a : Yaml) : Bool :=
  match a with
  | .str s => s = "PatternDataGrabber" || s = "PatternDataladDataGrabber"
  | _ => false

/-- Sequential `d.pop(k)` calls with no default. -/
def popMany (ks : List String) (d : Dict) : Except Err Dict :=
  match ks with
  | [] => .ok d
  | k :: rest =>
    match dpopE d k with
    | .error e => .error e
    | .ok (_, d') => popMany rest d'

/-- The six fields popped for non-pattern datagrabbers (lines 273-278), in
source order. -/
def sixDropFields : List String :=
  ["uri", "rootdir", "patterns", "replacements", "confounds_format",
   "partial_pattern_ok"]

/-- The `for k in data["datagrabber"].keys(): if k.startswith("datalad"):
y["datagrabber"].pop(k)` loop (lines 279-283). -/
def dropDatalad (ks : List String) (d : Dict) : Except Err Dict :=
  match ks with
  | [] => .ok d
  | k :: rest =>
    if strStartsWith k "datalad" then
      match dpopE d k with
      | .error e => .error e
      | .ok (_, d') => dropDatalad rest d'
    else dropDatalad rest d

/-- Lines 269-283: copy the record's `datagrabber`, rename `class` to `kind`,
and for non-pattern grabbers pop the six fields plus all `datalad*` keys of
the original record. -/
def synthDatagrabber (dgv : Yaml) : Except Err Dict :=
  match dgv with
  | .map dg =>
    match dpopE dg "class" with
    | .error e => .error e
    | .ok (a, d1) =>
      let d2 := aset d1 "kind" a
      if isPatternClass a then .ok d2
      else
        match popMany sixDropFields d2 with
        | .error e => .error e
        | .ok d3 => dropDatalad (akeys dg) d3
  | .list _ => .error .typeError
  | _ => .error .attributeError

/-- `v.copy()` followed by `.pop("class")` and `["kind"] = ...` (used for
`preprocess` and as the first half of the `marker` handling). -/
def synthClassKind (v : Yaml) : Except Err Dict :=
  match v with
  | .map m =>
    match dpopE m "class" with
    | .error e => .error e
    | .ok (b, m1) => .ok (aset m1 "kind" b)
  | .list _ => .error .typeError
  | _ => .error .attributeError

/-- Lines 290-295: single marker copy with `class`→`kind`; then
`if y["markers"][0]["masks"] is None: pop` — a record without a `masks` key
raises `KeyError` at the subscript. -/
def synthMarker (mv : Yaml) : Except Err Dict :=
  match synthClassKind mv with
  | .error e => .error e
  | .ok m2 =>
    match alookup m2 "masks" with
    | some .null => .ok (aremove m2 "masks")
    | some _ => .ok m2
    | none => .error (.keyError "masks")

/-- The `if "with" in data` block (lines 266-267). -/
def withStage (dm y : Dict) : Except Err Dict :=
  match alookup dm "with" with
  | some w =>
    match pycopy w with
    | .error e => .error e
    | .ok w' => .ok (aset y "with" w')
  | none => .ok y

/-- The `if "preprocess" in data` block (lines 285-288). -/
def preStage (dm y : Dict) : Except Err Dict :=
  match alookup dm "preprocess" with
  | some pv =>
    match synthClassKind pv with
    | .error e => .error e
    | .ok p' => .ok (aset y "preprocess" (.map p'))
  | none => .ok y

/-- Model of `_feature_yaml_from_meta(data, feature)` (the `feature` argument
is unused in the source body as well). Non-dict records fail with
`TypeError` at their first subscript. -/
def featureYamlFromMeta (data : Yaml) (feature : String) : Except Err Dict :=
  match data with
  | .map dm =>
    match withStage dm [("workdir", Yaml.str "")] with
    | .error e => .error e
    | .ok y1 =>
      match getD dm "datagrabber" with
      | .error e => .error e
      | .ok dgv =>
        match synthDatagrabber dgv with
        | .error e => .error e
        | .ok dg' =>
          match preStage dm (aset y1 "datagrabber" (.map dg')) with
          | .error e => .error e
          | .ok y3 =>
            match getD dm "marker" with
            | .error e => .error e
            | .ok mv =>
              match synthMarker mv with
              | .error e => .error e
              | .ok mk =>
                match getD dm "name" with
                | .error e => .error e
                | .ok nm =>
                  .ok (aset (aset (aset y3 "markers" (.list [.map mk]))
                        "storage"
                        (.map [("kind", .str "HDF5FeatureStorage"),
                               ("uri", .str "")]))
                    "queue" (.map [("jobname", nm), ("kind", .str "")]))
  | _ => .error .typeError

/-! ### `_process_hdf5` and `process_features` -/

def featMetaPath (dsPath k : String) : String :=
  dsPath ++ "/features/feature-" ++ k ++ "-meta.yaml"

def featYmlPath (dsPath k : String) : String :=
  dsPath ++ "/features/feature-" ++ k ++ ".yml"

/-- The data file path is written through `str(data_path.resolve())`. -/
def featH5Path (dsPath k : String) : String :=
  renderAbs (resolveAbs (pathComps (dsPath ++ "/features/feature-" ++ k ++ ".h5")))

/-- `read_hdf5(fname, title)`: raises (`StorageReadError`) when the file is
missing, is not an HDF5 container, or lacks the title. -/
def readHdf5 (fs : FS) (fname title : String) : Except Err Yaml :=
  match alookup fs fname with
  | some (.h5File entries) =>
    match alookup entries title with
    | some v => .ok v
    | none => .error .storageReadError
  | _ => .error .storageReadError

/-- The `for k, v in metadata.items()` loop of `_process_hdf5`
(lines 334-352). `dataVar` models the Python local `data`, which the source
REBINDS to the feature payload at line 343 (`data = read_hdf5(...)`), so the
next iteration evaluates `data["storage"]["uri"]` on the previous feature's
payload. On an exception the filesystem written so far is kept and the error
is reported. -/
def processHdf5Loop (dsPath : String) (items : List (String × Yaml))
    (dataVar : Yaml) (fs : FS) : FS × Except Err Unit :=
  match items with
  | [] => (fs, .ok ())
  | (k, v) :: rest =>
    let fs1 := fsWrite fs (featMetaPath dsPath k) (.yamlFile v)
    match featureYamlFromMeta v k with
    | .error e => (fs1, .error e)
    | .ok y =>
      let fs2 := fsWrite fs1 (featYmlPath dsPath k) (.yamlFile (.map y))
      match getUri dataVar with
      | .error e => (fs2, .error e)
      | .ok fname =>
        match readHdf5 fs2 fname k with
        | .error e => (fs2, .error e)
        | .ok payload =>
          let fs3 := fsWrite fs2 (featH5Path dsPath k) (.h5File [(k, payload)])
          processHdf5Loop dsPath rest payload fs3

/-- Model of `_process_hdf5(data, ds)`; `dsPath` is `ds.pathobj`. -/
def processHdf5 (dsPath : String) (d : Dict) (fs : FS) : FS × Except Err Unit :=
  match getUri (.map d) with
  | .error e => (fs, .error e)
  | .ok fname =>
    match readHdf5 fs fname "meta" with
    | .error e => (fs, .error e)
    | .ok (.map items) => processHdf5Loop dsPath items (.map d) fs
    | .ok _ => (fs, .error .typeError)

/-- Outcome of one `process_features` run: final disk state, whether
`ds.save` was invoked, and the Python-level result. -/
structure IngestResult where
  fs : FS
  saved : Bool
  result : Except Err Unit

/-- Model of `process_features(yaml_path, ds)` (lines 357-398): parse and
validate the descriptor, dispatch on the storage URI extension (`.hdf5` →
`_process_hdf5`; `.sqlite` → `pass`; otherwise raise), then call `ds.save`.
An exception anywhere propagates before the `ds.save` call is reached. -/
def processFeatures (cwd : List (List Char)) (contents : Yaml)
    (base dsPath : String) (fs : FS) : IngestResult :=
  match parseYaml cwd contents base fs with
  | .error e => ⟨fs, false, .error e⟩
  | .ok d =>
    match getUri (.map d) with
    | .error e => ⟨fs, false, .error e⟩
    | .ok u =>
      if strEndsWith u ".hdf5" then
        match processHdf5 dsPath d fs with
        | (fs', .error e) => ⟨fs', false, .error e⟩
        | (fs', .ok _) => ⟨fs', true, .ok ()⟩
      else if strEndsWith u ".sqlite" then ⟨fs, true, .ok ()⟩
      else ⟨fs, false, .error (.unsupportedFormat (pathSuffix u))⟩

/-! ### Concrete inputs used by the claim theorems -/

/-- Well-formed metadata record for feature key `A` (pattern-based grabber,
`masks` null), as a dict. -/
def recAm : Dict := [("name", .str "fA"),
  ("datagrabber", .map [("class", .str "PatternDataGrabber"), ("uri", .str "/u")]),
  ("marker", .map [("class", .str "M"), ("masks", .null)])]

/-- The record `recAm` as a YAML value. -/
def recA : Yaml := .map recAm

/-- The recipe synthesized from `recAm`. -/
def synthA : Dict := [("workdir", .str ""),
  ("datagrabber", .map [("uri", .str "/u"), ("kind", .str "PatternDataGrabber")]),
  ("markers", .list [.map [("kind", .str "M")]]),
  ("storage", .map [("kind", .str "HDF5FeatureStorage"), ("uri", .str "")]),
  ("queue", .map [("jobname", .str "fA"), ("kind", .str "")])]

/-- Well-formed metadata record for feature key `B`. -/
def recB : Yaml := .map [("name", .str "fB"),
  ("datagrabber", .map [("class", .str "PatternDataGrabber")]),
  ("marker", .map [("class", .str "N"), ("masks", .null)])]

/-- Data payload stored for feature `A` (as junifer's HDF5 storage lays it
out, the payload has no `storage` key). -/
def payloadA : Yaml := .map [("data", .int 1)]

def payloadB : Yaml := .map [("data", .int 2)]

/-- A combined store with exactly the two feature keys `A` and `B`. -/
def storeAB : FData := .h5File [("meta", .map [("A", recA), ("B", recB)]),
  ("A", payloadA), ("B", payloadB)]

/-- Disk state holding only the combined store. -/
def fsAB : FS := [("/store.hdf5", storeAB)]

/-- A valid descriptor pointing at the combined store. -/
def descAB : Yaml := .map [("workdir", .str "/w"), ("datagrabber", .map []),
  ("markers", .list []), ("storage", .map [("uri", .str "/store.hdf5")])]

/-- The same valid descriptor with an additional top-level null `elements`
key. -/
def descElements : Yaml := .map [("workdir", .str "/w"), ("datagrabber", .map []),
  ("markers", .list []), ("storage", .map [("uri", .str "/store.hdf5")]),
  ("elements", .null)]

/-- A valid descriptor whose storage URI has the SQLite extension. -/
def descSqlite : Yaml := .map [("workdir", .str "/w"), ("datagrabber", .map []),
  ("markers", .list []), ("storage", .map [("uri", .str "/db.sqlite")])]

/-- The parsed form of `descSqlite`. -/
def descSqliteParsed : Dict := [("workdir", .str "/w"), ("datagrabber", .map []),
  ("markers", .list []), ("storage", .map [("uri", .str "/db.sqlite")])]

/-- Disk state holding only the SQLite store file. -/
def fsSqlite : FS := [("/db.sqlite", .blob)]

/-- A valid descriptor whose storage URI has an unrecognized extension. -/
def descXyz : Yaml := .map [("workdir", .str "/w"), ("datagrabber", .map []),
  ("markers", .list []), ("storage", .map [("uri", .str "/db.xyz")])]

def fsXyz : FS := [("/db.xyz", .blob)]

/-- A metadata record whose marker lacks the `masks` key entirely. -/
def recNoMasks : Yaml := .map [("name", .str "f"),
  ("datagrabber", .map [("class", .str "PatternDataGrabber")]),
  ("marker", .map [("class", .str "M")])]

/-! ### Claim theorems -/

/-- C1 (code bug): decomposing a combined store with exactly the two feature
keys `A` and `B` does NOT complete with 6 files. `_process_hdf5` rebinds its
local `data` (the descriptor) to the feature payload at line 343, so the
second iteration evaluates `payloadA["storage"]["uri"]` and raises
`KeyError('storage')`: only 5 of the 6 files are written
(`feature-B.h5` is missing), and `ds.save` is never reached. -/
theorem c1_decomposition_crashes_on_second_feature :
    (processFeatures [] descAB "/" "/ds" fsAB).result =
        .error (.keyError "storage") ∧
      (processFeatures [] descAB "/" "/ds" fsAB).saved = false ∧
      akeys (processFeatures [] descAB "/" "/ds" fsAB).fs =
        ["/store.hdf5",
         "/ds/features/feature-A-meta.yaml",
         "/ds/features/feature-A.yml",
         "/ds/features/feature-A.h5",
         "/ds/features/feature-B-meta.yaml",
         "/ds/features/feature-B.yml"] :=
  ⟨rfl, rfl, rfl⟩

/-- C2 (code bug): a descriptor with the four mandatory sections plus a
top-level null `elements` key does not load successfully: the allow-list
check of `_parse_yaml` (lines 222-227) rejects `elements` as an unknown
section before the `elements`-removal code (lines 240-243, unreachable for
top-level keys) can run. -/
theorem c2_elements_rejected_as_unknown_section :
    parseYaml [] descElements "/" fsAB = .error (.unknownSection "elements") :=
  rfl

/-- C3 (counterexample to the claim as stated): a validated descriptor whose
storage URI ends in `.sqlite` does NOT fail with `UnsupportedStorageFormat`:
the `elif` branch of `process_features` (lines 384-386) is `pass`, so the run
silently succeeds, writes nothing, and still calls `ds.save`. -/
theorem c3_sqlite_silently_succeeds_and_commits :
    (processFeatures [] descSqlite "/" "/ds" fsSqlite).result = .ok () ∧
      (processFeatures [] descSqlite "/" "/ds" fsSqlite).saved = true ∧
      (processFeatures [] descSqlite "/" "/ds" fsSqlite).fs = fsSqlite :=
  ⟨rfl, rfl, rfl⟩

/-- C4 (code bug): for a non-list `with` value, `_adjust_paths` line 176 runs
`list(data["with"])`, which ITERATES the value: the string `"custom.py"`
becomes nine one-character entries, and since no single character ends in
`.py`, no path is rewritten — not a single-element list holding the original
value as the claim states. -/
theorem c4_with_string_is_split_into_characters :
    adjustPaths []
        [("with", .str "custom.py"), ("storage", .map [("uri", .str "/s.hdf5")])]
        "/base" =
      .ok [("with", .list [.str "c", .str "u", .str "s", .str "t", .str "o",
              .str "m", .str ".", .str "p", .str "y"]),
           ("storage", .map [("uri", .str "/s.hdf5")])] :=
  rfl

/-- C5 (counterexample to the claim as stated): a record whose `marker` LACKS
the `masks` key does not synthesize a recipe at all — line 294 evaluates
`y["markers"][0]["masks"]`, raising `KeyError('masks')`. -/
theorem c5_missing_masks_raises_keyerror :
    featureYamlFromMeta recNoMasks "k" = .error (.keyError "masks") :=
  rfl

/-! ### Idempotence of `_adjust_paths` (claim C7) -/

theorem stageWorkdir_lookup_ne {cwd : List (List Char)} {base : String}
    {d d' : Dict} (h : stageWorkdir cwd base d = .ok d') (k : String)
    (hk : k ≠ "workdir") : alookup d' k = alookup d k := by
  cases hw : alookup d "workdir" with
  | none =>
    simp only [stageWorkdir, hw, Except.ok.injEq] at h
    subst h
    rfl
  | some w =>
    cases w with
    | str s =>
      simp only [stageWorkdir, hw, Except.ok.injEq] at h
      subst h
      exact alookup_aset_ne d "workdir" k _ hk
    | map m =>
      cases hp : alookup m "path" with
      | none =>
        simp [stageWorkdir, hw, hp] at h
      | some p =>
        cases p with
        | str ps =>
          simp only [stageWorkdir, hw, hp, Except.ok.injEq] at h
          subst h
          exact alookup_aset_ne d "workdir" k _ hk
        | null => simp [stageWorkdir, hw, hp] at h
        | int n => simp [stageWorkdir, hw, hp] at h
        | bool b => simp [stageWorkdir, hw, hp] at h
        | list xs => simp [stageWorkdir, hw, hp] at h
        | map mm => simp [stageWorkdir, hw, hp] at h
    | null => simp [stageWorkdir, hw] at h
    | int n => simp [stageWorkdir, hw] at h
    | bool b => simp [stageWorkdir, hw] at h
    | list xs => simp [stageWorkdir, hw] at h

theorem stageWith_lookup_ne {cwd : List (List Char)} {base : String}
    {d d' : Dict} (h : stageWith cwd base d = .ok d') (k : String)
    (hk : k ≠ "with") : alookup d' k = alookup d k := by
  cases hw : alookup d "with" with
  | none =>
    simp only [stageWith, hw, Except.ok.injEq] at h
    subst h
    rfl
  | some w =>
    cases hws : coerceWith w with
    | error e => simp [stageWith, hw, hws] at h
    | ok ws =>
      cases hm : mapME (adjustModule cwd base) ws with
      | error e => simp [stageWith, hw, hws, hm] at h
      | ok mods =>
        simp only [stageWith, hw, hws, hm, Except.ok.injEq] at h
        subst h
        exact alookup_aset_ne d "with" k _ hk

theorem stageStorage_lookup_ne {cwd : List (List Char)} {base : String}
    {d d' : Dict} (h : stageStorage cwd base d = .ok d') (k : String)
    (hk : k ≠ "storage") : alookup d' k = alookup d k := by
  cases hst : alookup d "storage" with
  | none => simp [stageStorage, hst] at h
  | some st =>
    cases st with
    | map sm =>
      cases hu : alookup sm "uri" with
      | none => simp [stageStorage, hst, hu] at h
      | some u =>
        cases u with
        | str us =>
          simp only [stageStorage, hst, hu, Except.ok.injEq] at h
          subst h
          exact alookup_aset_ne d "storage" k _ hk
        | null => simp [stageStorage, hst, hu] at h
        | int n => simp [stageStorage, hst, hu] at h
        | bool b => simp [stageStorage, hst, hu] at h
        | list xs => simp [stageStorage, hst, hu] at h
        | map mm => simp [stageStorage, hst, hu] at h
    | null => simp [stageStorage, hst] at h
    | str s => simp [stageStorage, hst] at h
    | int n => simp [stageStorage, hst] at h
    | bool b => simp [stageStorage, hst] at h
    | list xs => simp [stageStorage, hst] at h

theorem adjustModule_idem {cwd : List (List Char)} {base : String} {w w' : Yaml}
    (hcwd : ∀ g ∈ cwd, '/' ∉ g) (h : adjustModule cwd base w = .ok w') :
    adjustModule cwd base w' = .ok w' := by
  cases w with
  | str s =>
    simp only [adjustModule, Except.ok.injEq] at h
    by_cases hpy : strEndsWith s ".py" = true
    · rw [if_pos hpy] at h
      subst h
      simp only [adjustModule]
      by_cases hpy2 : strEndsWith (makeAbsolutePath cwd s base) ".py" = true
      · rw [if_pos hpy2, makeAbsolutePath_idem cwd s base base hcwd]
      · rw [if_neg hpy2]
    · rw [if_neg hpy] at h
      subst h
      simp [adjustModule, hpy]
  | null => simp [adjustModule] at h
  | int n => simp [adjustModule] at h
  | bool b => simp [adjustModule] at h
  | list xs => simp [adjustModule] at h
  | map m => simp [adjustModule] at h

theorem mapME_idem {f : Yaml → Except Err Yaml}
    (hf : ∀ w w', f w = .ok w' → f w' = .ok w') :
    ∀ ws mods, mapME f ws = .ok mods → mapME f mods = .ok mods := by
  intro ws
  induction ws with
  | nil =>
    intro mods h
    simp only [mapME, Except.ok.injEq] at h
    subst h
    rfl
  | cons w ws' ih =>
    intro mods h
    cases hw : f w with
    | error e => simp [mapME, hw] at h
    | ok w' =>
      cases hrest : mapME f ws' with
      | error e => simp [mapME, hw, hrest] at h
      | ok ws'' =>
        simp only [mapME, hw, hrest, Except.ok.injEq] at h
        subst h
        simp only [mapME, hf w w' hw, ih ws'' hrest]

theorem stageWorkdir_second {cwd : List (List Char)} {base : String}
    {d d1 : Dict} (hcwd : ∀ g ∈ cwd, '/' ∉ g)
    (h : stageWorkdir cwd base d = .ok d1) :
    ∀ d₂ : Dict, alookup d₂ "workdir" = alookup d1 "workdir" →
      stageWorkdir cwd base d₂ = .ok d₂ := by
  intro d₂ h₂
  cases hw : alookup d "workdir" with
  | none =>
    simp only [stageWorkdir, hw, Except.ok.injEq] at h
    subst h
    rw [hw] at h₂
    simp only [stageWorkdir, h₂]
  | some w =>
    cases w with
    | str s =>
      simp only [stageWorkdir, hw, Except.ok.injEq] at h
      subst h
      rw [alookup_aset_self d "workdir" _] at h₂
      simp only [stageWorkdir, h₂]
      rw [makeAbsolutePath_idem cwd s base base hcwd]
      exact congrArg Except.ok (aset_of_lookup_eq d₂ "workdir" _ h₂)
    | map m =>
      cases hp : alookup m "path" with
      | none => simp [stageWorkdir, hw, hp] at h
      | some p =>
        cases p with
        | str ps =>
          simp only [stageWorkdir, hw, hp, Except.ok.injEq] at h
          subst h
          rw [alookup_aset_self d "workdir" _] at h₂
          have e1 : alookup (aset m "path" (.str (makeAbsolutePath cwd ps base)))
              "path" = some (.str (makeAbsolutePath cwd ps base)) :=
            alookup_aset_self m "path" _
          simp only [stageWorkdir, h₂, e1]
          rw [makeAbsolutePath_idem cwd ps base base hcwd]
          rw [aset_of_lookup_eq _ "path" _ e1]
          exact congrArg Except.ok (aset_of_lookup_eq d₂ "workdir" _ h₂)
        | null => simp [stageWorkdir, hw, hp] at h
        | int n => simp [stageWorkdir, hw, hp] at h
        | bool b => simp [stageWorkdir, hw, hp] at h
        | list xs => simp [stageWorkdir, hw, hp] at h
        | map mm => simp [stageWorkdir, hw, hp] at h
    | null => simp [stageWorkdir, hw] at h
    | int n => simp [stageWorkdir, hw] at h
    | bool b => simp [stageWorkdir, hw] at h
    | list xs => simp [stageWorkdir, hw] at h

theorem stageWith_second {cwd : List (List Char)} {base : String}
    {d d1 : Dict} (hcwd : ∀ g ∈ cwd, '/' ∉ g)
    (h : stageWith cwd base d = .ok d1) :
    ∀ d₂ : Dict, alookup d₂ "with" = alookup d1 "with" →
      stageWith cwd base d₂ = .ok d₂ := by
  intro d₂ h₂
  cases hw : alookup d "with" with
  | none =>
    simp only [stageWith, hw, Except.ok.injEq] at h
    subst h
    rw [hw] at h₂
    simp only [stageWith, h₂]
  | some w =>
    cases hws : coerceWith w with
    | error e => simp [stageWith, hw, hws] at h
    | ok ws =>
      cases hm : mapME (adjustModule cwd base) ws with
      | error e => simp [stageWith, hw, hws, hm] at h
      | ok mods =>
        simp only [stageWith, hw, hws, hm, Except.ok.injEq] at h
        subst h
        rw [alookup_aset_self d "with" _] at h₂
        have hcoerce : coerceWith (.list mods) = .ok mods := rfl
        have hm2 : mapME (adjustModule cwd base) mods = .ok mods :=
          mapME_idem (fun w w' hw' => adjustModule_idem hcwd hw') ws mods hm
        simp only [stageWith, h₂, hcoerce, hm2]
        exact congrArg Except.ok (aset_of_lookup_eq d₂ "with" _ h₂)

theorem stageStorage_second {cwd : List (List Char)} {base : String}
    {d d1 : Dict} (hcwd : ∀ g ∈ cwd, '/' ∉ g)
    (h : stageStorage cwd base d = .ok d1) :
    stageStorage cwd base d1 = .ok d1 := by
  cases hst : alookup d "storage" with
  | none => simp [stageStorage, hst] at h
  | some st =>
    cases st with
    | map sm =>
      cases hu : alookup sm "uri" with
      | none => simp [stageStorage, hst, hu] at h
      | some u =>
        cases u with
        | str us =>
          simp only [stageStorage, hst, hu, Except.ok.injEq] at h
          subst h
          have h₂ : alookup
              (aset d "storage"
                (.map (aset sm "uri" (.str (makeAbsolutePath cwd us base)))))
              "storage" =
              some (.map (aset sm "uri" (.str (makeAbsolutePath cwd us base)))) :=
            alookup_aset_self d "storage" _
          have e1 : alookup (aset sm "uri" (.str (makeAbsolutePath cwd us base)))
              "uri" = some (.str (makeAbsolutePath cwd us base)) :=
            alookup_aset_self sm "uri" _
          simp only [stageStorage, h₂, e1]
          rw [makeAbsolutePath_idem cwd us base base hcwd]
          rw [aset_of_lookup_eq _ "uri" _ e1]
          exact congrArg Except.ok (aset_of_lookup_eq _ "storage" _ h₂)
        | null => simp [stageStorage, hst, hu] at h
        | int n => simp [stageStorage, hst, hu] at h
        | bool b => simp [stageStorage, hst, hu] at h
        | list xs => simp [stageStorage, hst, hu] at h
        | map mm => simp [stageStorage, hst, hu] at h
    | null => simp [stageStorage, hst] at h
    | str s => simp [stageStorage, hst] at h
    | int n => simp [stageStorage, hst] at h
    | bool b => simp [stageStorage, hst] at h
    | list xs => simp [stageStorage, hst] at h

/-- C7: path normalization is idempotent — running `_adjust_paths` a second
time with the same base directory (and interpreter working directory, whose
components are slash-free) returns exactly the descriptor produced by the
first run. -/
theorem c7_adjust_paths_idempotent (cwd : List (List Char)) (d : Dict)
    (base : String) (hcwd : ∀ g ∈ cwd, '/' ∉ g) :
    (adjustPaths cwd d base).bind (fun d' => adjustPaths cwd d' base) =
      adjustPaths cwd d base := by
  cases h1 : stageWorkdir cwd base d with
  | error e => simp [adjustPaths, h1, Except.bind]
  | ok d1 =>
    cases h2 : stageWith cwd base d1 with
    | error e => simp [adjustPaths, h1, h2, Except.bind]
    | ok d2 =>
      cases h3 : stageStorage cwd base d2 with
      | error e => simp [adjustPaths, h1, h2, h3, Except.bind]
      | ok d3 =>
        have hadj : adjustPaths cwd d base = .ok d3 := by
          simp [adjustPaths, h1, h2, h3]
        rw [hadj]
        show adjustPaths cwd d3 base = .ok d3
        have hw3 : alookup d3 "workdir" = alookup d1 "workdir" := by
          rw [stageStorage_lookup_ne h3 "workdir" (by decide),
            stageWith_lookup_ne h2 "workdir" (by decide)]
        have hW := stageWorkdir_second hcwd h1 d3 hw3
        have hwi3 : alookup d3 "with" = alookup d2 "with" :=
          stageStorage_lookup_ne h3 "with" (by decide)
        have hWi := stageWith_second hcwd h2 d3 hwi3
        have hSt := stageStorage_second hcwd h3
        simp [adjustPaths, hW, hWi, hSt]

/-- C7 witness: a concrete descriptor with a relative workdir, a mixed
`with` list and a relative storage URI. -/
theorem c7_adjust_paths_idempotent_witness :
    (∀ g ∈ ([] : List (List Char)), '/' ∉ g) ∧
      (adjustPaths []
            [("workdir", .str "w"),
             ("with", .list [.str "mod.py", .str "plainmodule"]),
             ("storage", .map [("uri", .str "out/s.hdf5")])] "/b").bind
          (fun d' => adjustPaths [] d' "/b") =
        adjustPaths []
          [("workdir", .str "w"),
           ("with", .list [.str "mod.py", .str "plainmodule"]),
           ("storage", .map [("uri", .str "out/s.hdf5")])] "/b" :=
  ⟨by simp, c7_adjust_paths_idempotent []
    [("workdir", .str "w"),
     ("with", .list [.str "mod.py", .str "plainmodule"]),
     ("storage", .map [("uri", .str "out/s.hdf5")])] "/b" (by simp)⟩

/-! ### Orchestrator dispatch and commit gating (claims C3, C8) -/

/-- C3 amended: on a validated descriptor whose normalized storage URI does
not end in `.hdf5`, the orchestrator raises `UnsupportedStorageFormat` with
zero files written — EXCEPT for the declared-but-unimplemented `.sqlite`
extension, where the source's `pass` branch silently succeeds, writes zero
feature files, and still invokes the commit. -/
theorem c3_non_hdf5_dispatch (cwd : List (List Char)) (contents : Yaml)
    (base dsPath : String) (fs : FS) (d : Dict) (u : String)
    (hparse : parseYaml cwd contents base fs = .ok d)
    (huri : getUri (.map d) = .ok u)
    (h5 : strEndsWith u ".hdf5" = false) :
    processFeatures cwd contents base dsPath fs =
      if strEndsWith u ".sqlite" then ⟨fs, true, .ok ()⟩
      else ⟨fs, false, .error (.unsupportedFormat (pathSuffix u))⟩ := by
  by_cases hsq : strEndsWith u ".sqlite" = true
  · simp [processFeatures, hparse, huri, h5, hsq]
  · simp only [Bool.not_eq_true] at hsq
    simp [processFeatures, hparse, huri, h5, hsq]

/-- C3 witness: the `.sqlite` branch at a concrete descriptor. -/
theorem c3_non_hdf5_dispatch_witness :
    parseYaml [] descSqlite "/" fsSqlite = .ok descSqliteParsed ∧
      processFeatures [] descSqlite "/" "/ds" fsSqlite = ⟨fsSqlite, true, .ok ()⟩ := by
  refine ⟨rfl, ?_⟩
  have h := c3_non_hdf5_dispatch [] descSqlite "/" "/ds" fsSqlite descSqliteParsed
    "/db.sqlite" rfl rfl rfl
  rw [h]
  rfl

/-- C8: whenever any step of descriptor loading, validation, path
normalization or decomposition fails, the orchestrator's result is that
error and the workspace commit (`ds.save`) is never invoked. -/
theorem c8_no_save_after_failure (cwd : List (List Char)) (contents : Yaml)
    (base dsPath : String) (fs : FS) (e : Err)
    (h : (processFeatures cwd contents base dsPath fs).result = .error e) :
    (processFeatures cwd contents base dsPath fs).saved = false := by
  cases hp : parseYaml cwd contents base fs with
  | error e' => simp [processFeatures, hp]
  | ok d =>
    cases hu : getUri (.map d) with
    | error e' => simp [processFeatures, hp, hu]
    | ok u =>
      by_cases h5 : strEndsWith u ".hdf5" = true
      · cases hph : processHdf5 dsPath d fs with
        | mk fs' r =>
          cases r with
          | error e' => simp [processFeatures, hp, hu, h5, hph]
          | ok u' => simp [processFeatures, hp, hu, h5, hph] at h
      · by_cases hsq : strEndsWith u ".sqlite" = true
        · simp [processFeatures, hp, hu, h5, hsq] at h
        · simp only [Bool.not_eq_true] at h5 hsq
          simp [processFeatures, hp, hu, h5, hsq]

/-- C8 witness: a run that fails at descriptor loading never saves. -/
theorem c8_no_save_after_failure_witness :
    (processFeatures [] (.str "bad") "/" "/ds" []).result =
        .error Err.attributeError ∧
      (processFeatures [] (.str "bad") "/" "/ds" []).saved = false :=
  ⟨rfl, c8_no_save_after_failure [] (.str "bad") "/" "/ds" [] Err.attributeError rfl⟩

/-! ### Synthesis lemmas (claims C5, C6, C10) -/

theorem getD_ok {m : Dict} {k : String} {v : Yaml} (h : getD m k = .ok v) :
    alookup m k = some v := by
  cases hx : alookup m k with
  | none => simp [getD, hx] at h
  | some w =>
    simp [getD, hx] at h
    rw [h]

theorem preStage_lookup_ne {dm y y' : Dict} (h : preStage dm y = .ok y')
    (k : String) (hk : k ≠ "preprocess") : alookup y' k = alookup y k := by
  cases hp : alookup dm "preprocess" with
  | none =>
    simp [preStage, hp] at h
    subst h
    rfl
  | some pv =>
    cases hs : synthClassKind pv with
    | error e => simp [preStage, hp, hs] at h
    | ok p' =>
      simp [preStage, hp, hs] at h
      subst h
      exact alookup_aset_ne y "preprocess" k _ hk

/-- Inversion of a successful synthesis: the record had a `datagrabber` and a
`marker`, both stages succeeded, and the recipe holds their outputs. -/
theorem featureYamlFromMeta_ok_inv {dm : Dict} {f : String} {y : Dict}
    (h : featureYamlFromMeta (.map dm) f = .ok y) :
    ∃ dgv dg' mv mk,
      alookup dm "datagrabber" = some dgv ∧ synthDatagrabber dgv = .ok dg' ∧
      alookup dm "marker" = some mv ∧ synthMarker mv = .ok mk ∧
      alookup y "datagrabber" = some (.map dg') ∧
      alookup y "markers" = some (.list [.map mk]) := by
  cases hw : withStage dm [("workdir", .str "")] with
  | error e => simp [featureYamlFromMeta, hw] at h
  | ok y1 =>
    cases hdg : getD dm "datagrabber" with
    | error e => simp [featureYamlFromMeta, hw, hdg] at h
    | ok dgv =>
      cases hsd : synthDatagrabber dgv with
      | error e => simp [featureYamlFromMeta, hw, hdg, hsd] at h
      | ok dg' =>
        cases hpre : preStage dm (aset y1 "datagrabber" (.map dg')) with
        | error e => simp [featureYamlFromMeta, hw, hdg, hsd, hpre] at h
        | ok y3 =>
          cases hmv : getD dm "marker" with
          | error e => simp [featureYamlFromMeta, hw, hdg, hsd, hpre, hmv] at h
          | ok mv =>
            cases hmk : synthMarker mv with
            | error e =>
              simp [featureYamlFromMeta, hw, hdg, hsd, hpre, hmv, hmk] at h
            | ok mk =>
              cases hnm : getD dm "name" with
              | error e =>
                simp [featureYamlFromMeta, hw, hdg, hsd, hpre, hmv, hmk, hnm] at h
              | ok nm =>
                simp only [featureYamlFromMeta, hw, hdg, hsd, hpre, hmv, hmk, hnm,
                  Except.ok.injEq] at h
                subst h
                refine ⟨dgv, dg', mv, mk, getD_ok hdg, hsd, getD_ok hmv, hmk, ?_, ?_⟩
                · rw [alookup_aset_ne _ _ _ _ (by decide),
                    alookup_aset_ne _ _ _ _ (by decide),
                    alookup_aset_ne _ _ _ _ (by decide),
                    preStage_lookup_ne hpre "datagrabber" (by decide)]
                  exact alookup_aset_self y1 "datagrabber" _
                · rw [alookup_aset_ne _ _ _ _ (by decide),
                    alookup_aset_ne _ _ _ _ (by decide)]
                  exact alookup_aset_self y3 "markers" _

/-- C5 amended: for a record whose `marker` maps `masks` to null (keys
unduplicated, as Python dicts guarantee), the synthesized recipe's single
marker has no `masks` key at all (omitted, not null). A record whose marker
LACKS `masks` instead fails with `KeyError` (see the counterexample). -/
theorem c5_masks_null_key_omitted (dm : Dict) (f : String) (y : Dict)
    (m : Dict) (h0 : featureYamlFromMeta (.map dm) f = .ok y)
    (h1 : alookup dm "marker" = some (.map m))
    (hnd : (akeys m).Nodup)
    (h2 : alookup m "masks" = some .null) :
    ∃ mk, alookup y "markers" = some (.list [.map mk]) ∧
      alookup mk "masks" = none := by
  obtain ⟨dgv, dg', mv, mk, hdgl, hsd, hmvl, hmk, hydg, hymk⟩ :=
    featureYamlFromMeta_ok_inv h0
  refine ⟨mk, hymk, ?_⟩
  rw [h1] at hmvl
  injection hmvl with hmv
  subst hmv
  cases hc : alookup m "class" with
  | none =>
    have : synthMarker (.map m) = .error (.keyError "class") := by
      simp [synthMarker, synthClassKind, dpopE, hc]
    rw [this] at hmk
    exact Except.noConfusion hmk
  | some c =>
    have hsck : synthClassKind (.map m) = .ok (aset (aremove m "class") "kind" c) := by
      simp [synthClassKind, dpopE, hc]
    have hm2 : alookup (aset (aremove m "class") "kind" c) "masks" = some .null := by
      rw [alookup_aset_ne _ _ _ _ (by decide),
        alookup_aremove_ne _ _ _ (by decide), h2]
    have hstep : synthMarker (.map m) =
        .ok (aremove (aset (aremove m "class") "kind" c) "masks") := by
      simp [synthMarker, hsck, hm2]
    rw [hstep] at hmk
    injection hmk with hmk'
    subst hmk'
    exact alookup_aremove_self_of_nodup _ "masks"
      (nodup_akeys_aset _ "kind" c (nodup_akeys_aremove _ "class" hnd))

/-- C5 witness: the concrete record `recAm` (marker `masks` null). -/
theorem c5_masks_null_key_omitted_witness :
    featureYamlFromMeta (.map recAm) "A" = .ok synthA ∧
      ∃ mk, alookup synthA "markers" = some (.list [.map mk]) ∧
        alookup mk "masks" = none :=
  ⟨rfl, c5_masks_null_key_omitted recAm "A" synthA
    [("class", .str "M"), ("masks", .null)] rfl rfl (by decide) rfl⟩

theorem popMany_preserves_none {k : String} :
    ∀ (ks : List String) (d d' : Dict), popMany ks d = .ok d' →
      alookup d k = none → alookup d' k = none := by
  intro ks
  induction ks with
  | nil =>
    intro d d' h hk
    simp only [popMany, Except.ok.injEq] at h
    subst h
    exact hk
  | cons k0 rest ih =>
    intro d d' h hk
    cases hp : alookup d k0 with
    | none => simp [popMany, dpopE, hp] at h
    | some v =>
      simp only [popMany, dpopE, hp] at h
      exact ih _ _ h (alookup_aremove_none d k0 k hk)

theorem popMany_nodup :
    ∀ (ks : List String) (d d' : Dict), popMany ks d = .ok d' →
      (akeys d).Nodup → (akeys d').Nodup := by
  intro ks
  induction ks with
  | nil =>
    intro d d' h hnd
    simp only [popMany, Except.ok.injEq] at h
    subst h
    exact hnd
  | cons k0 rest ih =>
    intro d d' h hnd
    cases hp : alookup d k0 with
    | none => simp [popMany, dpopE, hp] at h
    | some v =>
      simp only [popMany, dpopE, hp] at h
      exact ih _ _ h (nodup_akeys_aremove d k0 hnd)

theorem popMany_ok_lookup_none {k : String} :
    ∀ (ks : List String) (d d' : Dict), popMany ks d = .ok d' →
      (akeys d).Nodup → k ∈ ks → alookup d' k = none := by
  intro ks
  induction ks with
  | nil =>
    intro d d' _ _ hk
    simp at hk
  | cons k0 rest ih =>
    intro d d' h hnd hk
    cases hp : alookup d k0 with
    | none => simp [popMany, dpopE, hp] at h
    | some v =>
      simp only [popMany, dpopE, hp] at h
      rcases List.mem_cons.mp hk with rfl | hk'
      · exact popMany_preserves_none rest _ _ h
          (alookup_aremove_self_of_nodup d k hnd)
      · exact ih _ _ h (nodup_akeys_aremove d k0 hnd) hk'

theorem popMany_ok_lookup_preserve {k : String} :
    ∀ (ks : List String) (d d' : Dict), popMany ks d = .ok d' →
      k ∉ ks → alookup d' k = alookup d k := by
  intro ks
  induction ks with
  | nil =>
    intro d d' h _
    simp only [popMany, Except.ok.injEq] at h
    subst h
    rfl
  | cons k0 rest ih =>
    intro d d' h hk
    cases hp : alookup d k0 with
    | none => simp [popMany, dpopE, hp] at h
    | some v =>
      simp only [popMany, dpopE, hp] at h
      have hk1 : k ≠ k0 := fun hh => hk (hh ▸ List.mem_cons_self _ _)
      have hk2 : k ∉ rest := fun hh => hk (List.mem_cons_of_mem _ hh)
      rw [ih _ _ h hk2]
      exact alookup_aremove_ne d k0 k hk1

theorem dropDatalad_preserves_none {k : String} :
    ∀ (ks : List String) (d d' : Dict), dropDatalad ks d = .ok d' →
      alookup d k = none → alookup d' k = none := by
  intro ks
  induction ks with
  | nil =>
    intro d d' h hk
    simp only [dropDatalad, Except.ok.injEq] at h
    subst h
    exact hk
  | cons k0 rest ih =>
    intro d d' h hk
    by_cases hdl : strStartsWith k0 "datalad" = true
    · cases hp : alookup d k0 with
      | none => simp [dropDatalad, hdl, dpopE, hp] at h
      | some v =>
        simp only [dropDatalad, hdl, if_true, dpopE, hp] at h
        exact ih _ _ h (alookup_aremove_none d k0 k hk)
    · simp only [dropDatalad, hdl, if_false] at h
      exact ih _ _ h hk

theorem dropDatalad_nodup :
    ∀ (ks : List String) (d d' : Dict), dropDatalad ks d = .ok d' →
      (akeys d).Nodup → (akeys d').Nodup := by
  intro ks
  induction ks with
  | nil =>
    intro d d' h hnd
    simp only [dropDatalad, Except.ok.injEq] at h
    subst h
    exact hnd
  | cons k0 rest ih =>
    intro d d' h hnd
    by_cases hdl : strStartsWith k0 "datalad" = true
    · cases hp : alookup d k0 with
      | none => simp [dropDatalad, hdl, dpopE, hp] at h
      | some v =>
        simp only [dropDatalad, hdl, if_true, dpopE, hp] at h
        exact ih _ _ h (nodup_akeys_aremove d k0 hnd)
    · simp only [dropDatalad, hdl, if_false] at h
      exact ih _ _ h hnd

theorem dropDatalad_lookup_nondatalad {k : String}
    (hk : strStartsWith k "datalad" = false) :
    ∀ (ks : List String) (d d' : Dict), dropDatalad ks d = .ok d' →
      alookup d' k = alookup d k := by
  intro ks
  induction ks with
  | nil =>
    intro d d' h
    simp only [dropDatalad, Except.ok.injEq] at h
    subst h
    rfl
  | cons k0 rest ih =>
    intro d d' h
    by_cases hdl : strStartsWith k0 "datalad" = true
    · cases hp : alookup d k0 with
      | none => simp [dropDatalad, hdl, dpopE, hp] at h
      | some v =>
        simp only [dropDatalad, hdl, if_true, dpopE, hp] at h
        have hne : k ≠ k0 := by
          intro hh
          rw [hh] at hk
          rw [hdl] at hk
          exact Bool.noConfusion hk
        rw [ih _ _ h]
        exact alookup_aremove_ne d k0 k hne
    · simp only [dropDatalad, hdl, if_false] at h
      exact ih _ _ h

theorem dropDatalad_lookup_datalad {k : String}
    (hk : strStartsWith k "datalad" = true) :
    ∀ (ks : List String) (d d' : Dict), dropDatalad ks d = .ok d' →
      (akeys d).Nodup → k ∈ ks → alookup d' k = none := by
  intro ks
  induction ks with
  | nil =>
    intro d d' _ _ hmem
    simp at hmem
  | cons k0 rest ih =>
    intro d d' h hnd hmem
    rcases List.mem_cons.mp hmem with rfl | hmem'
    · simp only [dropDatalad, hk, if_true] at h
      cases hp : alookup d k with
      | none => simp [dpopE, hp] at h
      | some v =>
        simp only [dpopE, hp] at h
        exact dropDatalad_preserves_none rest _ _ h
          (alookup_aremove_self_of_nodup d k hnd)
    · by_cases hdl : strStartsWith k0 "datalad" = true
      · cases hp : alookup d k0 with
        | none => simp [dropDatalad, hdl, dpopE, hp] at h
        | some v =>
          simp only [dropDatalad, hdl, if_true, dpopE, hp] at h
          exact ih _ _ h (nodup_akeys_aremove d k0 hnd) hmem'
      · simp only [dropDatalad, hdl, if_false] at h
        exact ih _ _ h hnd hmem'

theorem popMany_error_of_missing (k : String) :
    ∀ (ks : List String), k ∈ ks → ∀ d : Dict, alookup d k = none →
      ∃ e, popMany ks d = .error e := by
  intro ks
  induction ks with
  | nil =>
    intro hk
    simp at hk
  | cons k0 rest ih =>
    intro hk d hd
    rcases List.mem_cons.mp hk with rfl | hk'
    · exact ⟨.keyError k, by simp [popMany, dpopE, hd]⟩
    · cases hp : alookup d k0 with
      | none => exact ⟨.keyError k0, by simp [popMany, dpopE, hp]⟩
      | some v =>
        obtain ⟨e, he⟩ := ih hk' (aremove d k0) (alookup_aremove_none d k0 k hd)
        exact ⟨e, by simp [popMany, dpopE, hp, he]⟩

/-- C6: on a successfully synthesized record, the recipe's datagrabber is the
record's with the `class` discriminator renamed to `kind` — in both cases
`kind` holds the class value and the `class` key itself is gone; pattern-based
grabbers retain `uri`, `rootdir`, `patterns`, `replacements`, while any other
`class` value has the six drop-list fields and every `datalad*`-prefixed
field removed. -/
theorem c6_datagrabber_projection (dm : Dict) (f : String) (y : Dict)
    (dg : Dict) (a : Yaml)
    (h0 : featureYamlFromMeta (.map dm) f = .ok y)
    (h1 : alookup dm "datagrabber" = some (.map dg))
    (h2 : alookup dg "class" = some a)
    (hnd : (akeys dg).Nodup) :
    ∃ dg', alookup y "datagrabber" = some (.map dg') ∧
      alookup dg' "kind" = some a ∧
      alookup dg' "class" = none ∧
      (isPatternClass a = true →
        (alookup dg' "uri" = alookup dg "uri" ∧
         alookup dg' "rootdir" = alookup dg "rootdir" ∧
         alookup dg' "patterns" = alookup dg "patterns" ∧
         alookup dg' "replacements" = alookup dg "replacements")) ∧
      (isPatternClass a = false →
        (alookup dg' "uri" = none ∧ alookup dg' "rootdir" = none ∧
         alookup dg' "patterns" = none ∧ alookup dg' "replacements" = none ∧
         alookup dg' "confounds_format" = none ∧
         alookup dg' "partial_pattern_ok" = none ∧
         ∀ k, strStartsWith k "datalad" = true → alookup dg' k = none)) := by
  obtain ⟨dgv, dg', mv, mk, hdgl, hsd, _, _, hydg, _⟩ := featureYamlFromMeta_ok_inv h0
  rw [h1] at hdgl
  injection hdgl with hdgv
  subst hdgv
  have hclass2 : alookup (aset (aremove dg "class") "kind" a) "class" = none := by
    rw [alookup_aset_ne _ _ _ _ (by decide)]
    exact alookup_aremove_self_of_nodup dg "class" hnd
  by_cases hpat : isPatternClass a = true
  · have hstep : synthDatagrabber (.map dg) =
        .ok (aset (aremove dg "class") "kind" a) := by
      simp [synthDatagrabber, dpopE, h2, hpat]
    rw [hstep] at hsd
    injection hsd with hsd'
    subst hsd'
    refine ⟨_, hydg, alookup_aset_self _ "kind" a, hclass2, fun _ => ?_,
      fun hfalse => ?_⟩
    · refine ⟨?_, ?_, ?_, ?_⟩ <;>
        rw [alookup_aset_ne _ _ _ _ (by decide), alookup_aremove_ne _ _ _ (by decide)]
    · rw [hpat] at hfalse
      exact Bool.noConfusion hfalse
  · simp only [Bool.not_eq_true] at hpat
    cases hpm : popMany sixDropFields (aset (aremove dg "class") "kind" a) with
    | error e =>
      have : synthDatagrabber (.map dg) = .error e := by
        simp [synthDatagrabber, dpopE, h2, hpat, hpm]
      rw [this] at hsd
      exact Except.noConfusion hsd
    | ok d3 =>
      have hstep : synthDatagrabber (.map dg) = dropDatalad (akeys dg) d3 := by
        simp [synthDatagrabber, dpopE, h2, hpat, hpm]
      rw [hstep] at hsd
      have hnd2 : (akeys (aset (aremove dg "class") "kind" a)).Nodup :=
        nodup_akeys_aset _ "kind" a (nodup_akeys_aremove _ "class" hnd)
      have hnd3 : (akeys d3).Nodup := popMany_nodup sixDropFields _ _ hpm hnd2
      have hkind3 : alookup d3 "kind" = some a := by
        rw [popMany_ok_lookup_preserve sixDropFields _ _ hpm (by decide)]
        exact alookup_aset_self _ "kind" a
      have hkind : alookup dg' "kind" = some a := by
        rw [dropDatalad_lookup_nondatalad (by decide) (akeys dg) _ _ hsd]
        exact hkind3
      have hclass' : alookup dg' "class" = none :=
        dropDatalad_preserves_none (akeys dg) _ _ hsd
          (popMany_preserves_none sixDropFields _ _ hpm hclass2)
      have hsix : ∀ k ∈ sixDropFields, alookup dg' k = none := by
        intro k hkmem
        exact dropDatalad_preserves_none (akeys dg) _ _ hsd
          (popMany_ok_lookup_none sixDropFields _ _ hpm hnd2 hkmem)
      refine ⟨dg', hydg, hkind, hclass', fun htrue => ?_, fun _ => ?_⟩
      · rw [htrue] at hpat
        exact Bool.noConfusion hpat
      · refine ⟨hsix "uri" (by decide), hsix "rootdir" (by decide),
          hsix "patterns" (by decide), hsix "replacements" (by decide),
          hsix "confounds_format" (by decide),
          hsix "partial_pattern_ok" (by decide), ?_⟩
        intro k hkdl
        cases hgk : alookup dg k with
        | some v =>
          have hmem : k ∈ akeys dg := by
            by_contra hcon
            rw [(alookup_eq_none_iff dg k).mpr hcon] at hgk
            exact Option.noConfusion hgk
          exact dropDatalad_lookup_datalad hkdl (akeys dg) _ _ hsd hnd3 hmem
        | none =>
          have hknk : k ≠ "kind" := by
            intro hh
            rw [hh] at hkdl
            exact Bool.noConfusion ((by decide :
              strStartsWith "kind" "datalad" = false) ▸ hkdl)
          have h3none : alookup d3 k = none := by
            apply popMany_preserves_none sixDropFields _ _ hpm
            rw [alookup_aset_ne _ _ _ _ hknk]
            exact alookup_aremove_none dg "class" k hgk
          exact dropDatalad_preserves_none (akeys dg) _ _ hsd h3none

/-- C6 witness: the concrete pattern-based record `recAm`. -/
theorem c6_datagrabber_projection_witness :
    featureYamlFromMeta (.map recAm) "A" = .ok synthA ∧
      ∃ dg', alookup synthA "datagrabber" = some (.map dg') ∧
        alookup dg' "kind" = some (.str "PatternDataGrabber") ∧
        alookup dg' "class" = none ∧
        (isPatternClass (.str "PatternDataGrabber") = true →
          (alookup dg' "uri" =
              alookup [("class", Yaml.str "PatternDataGrabber"),
                ("uri", Yaml.str "/u")] "uri" ∧
           alookup dg' "rootdir" =
              alookup [("class", Yaml.str "PatternDataGrabber"),
                ("uri", Yaml.str "/u")] "rootdir" ∧
           alookup dg' "patterns" =
              alookup [("class", Yaml.str "PatternDataGrabber"),
                ("uri", Yaml.str "/u")] "patterns" ∧
           alookup dg' "replacements" =
              alookup [("class", Yaml.str "PatternDataGrabber"),
                ("uri", Yaml.str "/u")] "replacements")) ∧
        (isPatternClass (.str "PatternDataGrabber") = false →
          (alookup dg' "uri" = none ∧ alookup dg' "rootdir" = none ∧
           alookup dg' "patterns" = none ∧ alookup dg' "replacements" = none ∧
           alookup dg' "confounds_format" = none ∧
           alookup dg' "partial_pattern_ok" = none ∧
           ∀ k, strStartsWith k "datalad" = true → alookup dg' k = none)) :=
  ⟨rfl, c6_datagrabber_projection recAm "A" synthA
    [("class", .str "PatternDataGrabber"), ("uri", .str "/u")]
    (.str "PatternDataGrabber") rfl rfl rfl (by decide)⟩

/-- C10: for a record whose datagrabber `class` is not a pattern-based
variant, synthesis requires all six drop-list fields to be present: if any
one is absent, `_feature_yaml_from_meta` fails with an exception rather than
skipping the absent field. -/
theorem c10_missing_drop_field_fails (dm : Dict) (feat : String) (dg : Dict)
    (a : Yaml) (f : String)
    (h1 : alookup dm "datagrabber" = some (.map dg))
    (h2 : alookup dg "class" = some a)
    (h3 : isPatternClass a = false)
    (h4 : f ∈ sixDropFields)
    (h5 : alookup dg f = none) :
    ∃ e, featureYamlFromMeta (.map dm) feat = .error e := by
  cases hw : withStage dm [("workdir", .str "")] with
  | error e => exact ⟨e, by simp [featureYamlFromMeta, hw]⟩
  | ok y1 =>
    have hf_ne_kind : f ≠ "kind" := by
      intro hkk
      rw [hkk] at h4
      simp [sixDropFields] at h4
    have hd2 : alookup (aset (aremove dg "class") "kind" a) f = none := by
      rw [alookup_aset_ne _ _ _ _ hf_ne_kind]
      exact alookup_aremove_none dg "class" f h5
    obtain ⟨e', he'⟩ := popMany_error_of_missing f sixDropFields h4 _ hd2
    have hsd : synthDatagrabber (.map dg) = .error e' := by
      simp [synthDatagrabber, dpopE, h2, h3, he']
    exact ⟨e', by simp [featureYamlFromMeta, hw, getD, h1, hsd]⟩

/-- The record used by the C10 witness: non-pattern grabber missing the six
drop-list fields. -/
def recOther : Dict := [("name", .str "x"),
  ("datagrabber", .map [("class", .str "OasisVBMDataGrabber")]),
  ("marker", .map [("class", .str "M"), ("masks", .null)])]

/-- C10 witness: synthesis fails on `recOther` (missing `uri`). -/
theorem c10_missing_drop_field_fails_witness :
    ∃ e, featureYamlFromMeta (.map recOther) "f" = .error e :=
  c10_missing_drop_field_fails recOther "f"
    [("class", .str "OasisVBMDataGrabber")] (.str "OasisVBMDataGrabber")
    "uri" rfl rfl rfl (by decide) rfl

/-! ### Heap semantics for `_feature_yaml_from_meta` (claim C9)

Python objects live on a heap of mutable cells; `.copy()` allocates, `.pop`,
item-assignment and `.append` mutate a cell in place. The claim is a frame
property: a successful call leaves every pre-existing cell untouched. -/

/-- A Python value slot: an immutable value or a reference to a heap cell. -/
inductive HVal where
  | prim (v : Yaml) : HVal
  | ref (n : Nat) : HVal
  deriving Repr

/-- A heap cell: a mutable dict or a mutable list. -/
inductive HObj where
  | hdict (entries : List (String × HVal)) : HObj
  | hlist (items : List HVal) : HObj
  deriving Repr

/-- The Python heap: cells addressed by allocation index. -/
abbrev Heap := List HObj

/-- Allocate a fresh cell at the end of the heap. -/
def halloc (h : Heap) (o : HObj) : Heap × Nat := (h ++ [o], h.length)

/-- Dereference. -/
def hget (h : Heap) (n : Nat) : Except Err HObj :=
  match h.get? n with
  | some o => .ok o
  | none => .error .typeError

/-- `x.copy()`: shallow-copy the referenced cell into a fresh cell; scalars
have no `.copy` (`AttributeError`). -/
def hcopy (h : Heap) (v : HVal) : Except Err (Heap × Nat) :=
  match v with
  | .prim _ => .error .attributeError
  | .ref n =>
    match hget h n with
    | .error e => .error e
    | .ok o => .ok (halloc h o)

/-- `d.pop(k)` on the dict cell `n`, in place. -/
def hpopDict (h : Heap) (n : Nat) (k : String) : Except Err (HVal × Heap) :=
  match hget h n with
  | .error e => .error e
  | .ok (.hdict entries) =>
    match alookup entries k with
    | some v => .ok (v, h.set n (.hdict (aremove entries k)))
    | none => .error (.keyError k)
  | .ok (.hlist _) => .error .typeError

/-- `d[k] = v` on the dict cell `n`, in place. -/
def hsetDict (h : Heap) (n : Nat) (k : String) (v : HVal) : Except Err Heap :=
  match hget h n with
  | .error e => .error e
  | .ok (.hdict entries) => .ok (h.set n (.hdict (aset entries k v)))
  | .ok (.hlist _) => .error .typeError

/-- `l.append(v)` on the list cell `n`, in place. -/
def hlistAppend (h : Heap) (n : Nat) (v : HVal) : Except Err Heap :=
  match hget h n with
  | .error e => .error e
  | .ok (.hlist items) => .ok (h.set n (.hlist (items ++ [v])))
  | .ok (.hdict _) => .error .typeError

/-- `x.keys()` for a referenced dict. -/
def hkeys (h : Heap) (v : HVal) : Except Err (List String) :=
  match v with
  | .ref n =>
    match hget h n with
    | .ok (.hdict entries) => .ok (akeys entries)
    | _ => .error .attributeError
  | .prim _ => .error .attributeError

/-- `a in ("PatternDataGrabber", "PatternDataladDataGrabber")` for a slot
value: a reference (container) never equals a string. -/
def isPatternClassH (a : HVal) : Bool :=
  match a with
  | .prim v => isPatternClass v
  | .ref _ => false

/-- The six pops of lines 273-278 on the copied datagrabber cell. -/
def popManyH (ks : List String) (h : Heap) (n : Nat) : Except Err Heap :=
  match ks with
  | [] => .ok h
  | k :: rest =>
    match hpopDict h n k with
    | .error e => .error e
    | .ok (_, h') => popManyH rest h' n

/-- The `datalad*` pop loop of lines 279-283 on the copied cell. -/
def dropDataladH (ks : List String) (h : Heap) (n : Nat) : Except Err Heap :=
  match ks with
  | [] => .ok h
  | k :: rest =>
    if strStartsWith k "datalad" then
      match hpopDict h n k with
      | .error e => .error e
      | .ok (_, h') => dropDataladH rest h' n
    else dropDataladH rest h n

/-- Heap version of the datagrabber block (lines 269-283): copy the record's
datagrabber, pop `class`, set `kind` — all on the fresh copy — and for
non-pattern grabbers pop the six fields plus the `datalad*` keys listed by
the ORIGINAL cell (which is only read). -/
def dgStageH (h : Heap) (dgv : HVal) : Except Err (Heap × Nat) :=
  match hcopy h dgv with
  | .error e => .error e
  | .ok (h1, n) =>
    match hpopDict h1 n "class" with
    | .error e => .error e
    | .ok (a, h2) =>
      match hsetDict h2 n "kind" a with
      | .error e => .error e
      | .ok h3 =>
        if isPatternClassH a then .ok (h3, n)
        else
          match popManyH sixDropFields h3 n with
          | .error e => .error e
          | .ok h4 =>
            match hkeys h4 dgv with
            | .error e => .error e
            | .ok ks =>
              match dropDataladH ks h4 n with
              | .error e => .error e
              | .ok h5 => .ok (h5, n)

/-- Heap version of `copy` + `pop("class")` + `["kind"] = ...` (the
`preprocess` block, lines 285-288). -/
def classKindStageH (h : Heap) (v : HVal) : Except Err (Heap × Nat) :=
  match hcopy h v with
  | .error e => .error e
  | .ok (h1, n) =>
    match hpopDict h1 n "class" with
    | .error e => .error e
    | .ok (b, h2) =>
      match hsetDict h2 n "kind" b with
      | .error e => .error e
      | .ok h3 => .ok (h3, n)

/-- Heap version of the markers block (lines 290-295): allocate the fresh
markers list, append a copy of the record's marker, rename `class` to
`kind` on the copy, and pop a null `masks` from the copy. Returns the list
cell and the marker cell. -/
def markerStageH (h : Heap) (mv : HVal) : Except Err (Heap × Nat × Nat) :=
  match halloc h (.hlist []) with
  | (h0, ml) =>
    match hcopy h0 mv with
    | .error e => .error e
    | .ok (h1, mn) =>
      match hlistAppend h1 ml (.ref mn) with
      | .error e => .error e
      | .ok h2 =>
        match hpopDict h2 mn "class" with
        | .error e => .error e
        | .ok (c, h3) =>
          match hsetDict h3 mn "kind" c with
          | .error e => .error e
          | .ok h4 =>
            match hget h4 mn with
            | .error e => .error e
            | .ok (.hlist _) => .error .typeError
            | .ok (.hdict me) =>
              match alookup me "masks" with
              | some (.prim .null) =>
                match hpopDict h4 mn "masks" with
                | .error e => .error e
                | .ok (_, h5) => .ok (h5, ml, mn)
              | some _ => .ok (h4, ml, mn)
              | none => .error (.keyError "masks")

/-- Heap version of the `with` block (lines 266-267): copy when present. -/
def withStageH (h : Heap) (entries : List (String × HVal))
    (y : List (String × HVal)) : Except Err (Heap × List (String × HVal)) :=
  match alookup entries "with" with
  | some w =>
    match hcopy h w with
    | .error e => .error e
    | .ok (h1, wn) => .ok (h1, aset y "with" (.ref wn))
  | none => .ok (h, y)

/-- Heap version of the `preprocess` block (lines 285-288). -/
def preStageH (h : Heap) (entries : List (String × HVal))
    (y : List (String × HVal)) : Except Err (Heap × List (String × HVal)) :=
  match alookup entries "preprocess" with
  | some pv =>
    match classKindStageH h pv with
    | .error e => .error e
    | .ok (h3, pn) => .ok (h3, aset y "preprocess" (.ref pn))
  | none => .ok (h, y)

/-- Heap model of `_feature_yaml_from_meta(data, feature)`: `dataRef` points
at the record dict; the built `y` is returned as its entry list, with its
fresh sub-cells living in the extended heap. -/
def featureYamlFromMetaH (h : Heap) (dataRef : Nat) :
    Except Err (Heap × List (String × HVal)) :=
  match hget h dataRef with
  | .error e => .error e
  | .ok (.hlist _) => .error .typeError
  | .ok (.hdict entries) =>
    match withStageH h entries [("workdir", HVal.prim (.str ""))] with
    | .error e => .error e
    | .ok (h1, y1) =>
      match alookup entries "datagrabber" with
      | none => .error (.keyError "datagrabber")
      | some dgv =>
        match dgStageH h1 dgv with
        | .error e => .error e
        | .ok (h2, dgn) =>
          match preStageH h2 entries (aset y1 "datagrabber" (.ref dgn)) with
          | .error e => .error e
          | .ok (h3, y3) =>
            match alookup entries "marker" with
            | none => .error (.keyError "marker")
            | some mv =>
              match markerStageH h3 mv with
              | .error e => .error e
              | .ok (h4, ml, _) =>
                match halloc h4
                    (.hdict [("kind", .prim (.str "HDF5FeatureStorage")),
                             ("uri", .prim (.str ""))]) with
                | (h5, sn) =>
                  match alookup entries "name" with
                  | none => .error (.keyError "name")
                  | some nm =>
                    match halloc h5
                        (.hdict [("jobname", nm), ("kind", .prim (.str ""))]) with
                    | (h6, qn) =>
                      .ok (h6, aset (aset (aset y3 "markers" (.ref ml))
                        "storage" (.ref sn)) "queue" (.ref qn))

/-- Heap evolution that leaves every cell of `h0` in place: the new heap is
at least as long and agrees on all pre-existing indices. -/
def heapLe (h0 h : Heap) : Prop :=
  h0.length ≤ h.length ∧ ∀ i, i < h0.length → h.get? i = h0.get? i

theorem heapLe_refl (h : Heap) : heapLe h h := ⟨Nat.le_refl _, fun _ _ => rfl⟩

theorem heapLe_trans {h0 h1 h2 : Heap} (a : heapLe h0 h1) (b : heapLe h1 h2) :
    heapLe h0 h2 := by
  refine ⟨Nat.le_trans a.1 b.1, fun i hi => ?_⟩
  rw [b.2 i (Nat.lt_of_lt_of_le hi a.1), a.2 i hi]

theorem get?_append_left {α : Type} (l l' : List α) (i : Nat) (hi : i < l.length) :
    (l ++ l').get? i = l.get? i := by
  induction l generalizing i with
  | nil => simp at hi
  | cons x xs ih =>
    cases i with
    | zero => rfl
    | succ j =>
      simp only [List.length_cons, Nat.succ_lt_succ_iff] at hi
      simpa using ih j hi

theorem get?_set_ne {α : Type} (l : List α) (n m : Nat) (a : α) (h : n ≠ m) :
    (l.set n a).get? m = l.get? m := by
  induction l generalizing n m with
  | nil => simp
  | cons x xs ih =>
    cases n with
    | zero =>
      cases m with
      | zero => exact absurd rfl h
      | succ m' => simp [List.set]
    | succ n' =>
      cases m with
      | zero => simp [List.set]
      | succ m' =>
        simp only [List.set, List.get?]
        exact ih n' m' (fun hh => h (by rw [hh]))

theorem heapLe_alloc (h : Heap) (o : HObj) : heapLe h (h ++ [o]) := by
  refine ⟨by simp, fun i hi => get?_append_left h [o] i hi⟩

theorem heapLe_set {h0 h : Heap} (hle : heapLe h0 h) {n : Nat}
    (hn : h0.length ≤ n) (o : HObj) : heapLe h0 (h.set n o) := by
  refine ⟨by simpa using hle.1, fun i hi => ?_⟩
  rw [get?_set_ne h n i o (fun hh => Nat.lt_irrefl i (Nat.lt_of_lt_of_le hi (hh ▸ hn)))]
  exact hle.2 i hi

theorem hcopy_ok {h : Heap} {v : HVal} {h' : Heap} {n : Nat}
    (hc : hcopy h v = .ok (h', n)) : heapLe h h' ∧ n = h.length ∧
      h'.length = h.length + 1 := by
  cases v with
  | prim w => simp [hcopy] at hc
  | ref m =>
    cases hg : hget h m with
    | error e => simp [hcopy, hg] at hc
    | ok o =>
      simp only [hcopy, hg, halloc, Except.ok.injEq, Prod.mk.injEq] at hc
      rw [← hc.1, ← hc.2]
      exact ⟨heapLe_alloc h o, rfl, by simp⟩

theorem hpopDict_heapLe {h0 h h' : Heap} {n : Nat} {k : String} {v : HVal}
    (hle : heapLe h0 h) (hn : h0.length ≤ n)
    (hp : hpopDict h n k = .ok (v, h')) : heapLe h0 h' ∧ h'.length = h.length := by
  cases hg : hget h n with
  | error e => simp [hpopDict, hg] at hp
  | ok o =>
    cases o with
    | hlist items => simp [hpopDict, hg] at hp
    | hdict entries =>
      cases ha : alookup entries k with
      | none => simp [hpopDict, hg, ha] at hp
      | some w =>
        simp only [hpopDict, hg, ha, Except.ok.injEq, Prod.mk.injEq] at hp
        rw [← hp.2]
        exact ⟨heapLe_set hle hn _, by simp⟩

theorem hsetDict_heapLe {h0 h h' : Heap} {n : Nat} {k : String} {v : HVal}
    (hle : heapLe h0 h) (hn : h0.length ≤ n)
    (hp : hsetDict h n k v = .ok h') : heapLe h0 h' ∧ h'.length = h.length := by
  cases hg : hget h n with
  | error e => simp [hsetDict, hg] at hp
  | ok o =>
    cases o with
    | hlist items => simp [hsetDict, hg] at hp
    | hdict entries =>
      simp only [hsetDict, hg, Except.ok.injEq] at hp
      rw [← hp]
      exact ⟨heapLe_set hle hn _, by simp⟩

theorem hlistAppend_heapLe {h0 h h' : Heap} {n : Nat} {v : HVal}
    (hle : heapLe h0 h) (hn : h0.length ≤ n)
    (hp : hlistAppend h n v = .ok h') : heapLe h0 h' ∧ h'.length = h.length := by
  cases hg : hget h n with
  | error e => simp [hlistAppend, hg] at hp
  | ok o =>
    cases o with
    | hdict entries => simp [hlistAppend, hg] at hp
    | hlist items =>
      simp only [hlistAppend, hg, Except.ok.injEq] at hp
      rw [← hp]
      exact ⟨heapLe_set hle hn _, by simp⟩

theorem popManyH_heapLe {h0 : Heap} {n : Nat} :
    ∀ (ks : List String) (h h' : Heap), heapLe h0 h → h0.length ≤ n →
      popManyH ks h n = .ok h' → heapLe h0 h' ∧ h'.length = h.length := by
  intro ks
  induction ks with
  | nil =>
    intro h h' hle _ hp
    simp only [popManyH, Except.ok.injEq] at hp
    subst hp
    exact ⟨hle, rfl⟩
  | cons k rest ih =>
    intro h h' hle hn hp
    cases hpd : hpopDict h n k with
    | error e => simp [popManyH, hpd] at hp
    | ok p =>
      obtain ⟨w, h1⟩ := p
      simp only [popManyH, hpd] at hp
      obtain ⟨hle1, hlen1⟩ := hpopDict_heapLe hle hn hpd
      obtain ⟨hle2, hlen2⟩ := ih h1 h' hle1 hn hp
      exact ⟨hle2, by rw [hlen2, hlen1]⟩

theorem dropDataladH_heapLe {h0 : Heap} {n : Nat} :
    ∀ (ks : List String) (h h' : Heap), heapLe h0 h → h0.length ≤ n →
      dropDataladH ks h n = .ok h' → heapLe h0 h' ∧ h'.length = h.length := by
  intro ks
  induction ks with
  | nil =>
    intro h h' hle _ hp
    simp only [dropDataladH, Except.ok.injEq] at hp
    subst hp
    exact ⟨hle, rfl⟩
  | cons k rest ih =>
    intro h h' hle hn hp
    by_cases hdl : strStartsWith k "datalad" = true
    · cases hpd : hpopDict h n k with
      | error e => simp [dropDataladH, hdl, hpd] at hp
      | ok p =>
        obtain ⟨w, h1⟩ := p
        simp only [dropDataladH, hdl, if_true, hpd] at hp
        obtain ⟨hle1, hlen1⟩ := hpopDict_heapLe hle hn hpd
        obtain ⟨hle2, hlen2⟩ := ih h1 h' hle1 hn hp
        exact ⟨hle2, by rw [hlen2, hlen1]⟩
    · simp only [dropDataladH, hdl, if_false] at hp
      exact ih h h' hle hn hp

theorem dgStageH_heapLe {h h' : Heap} {v : HVal} {n : Nat}
    (hs : dgStageH h v = .ok (h', n)) : heapLe h h' := by
  cases hc : hcopy h v with
  | error e => simp [dgStageH, hc] at hs
  | ok p =>
    obtain ⟨h1, m⟩ := p
    obtain ⟨hle1, hm, hlen1⟩ := hcopy_ok hc
    have hmn : h.length ≤ m := by rw [hm]
    cases hpd : hpopDict h1 m "class" with
    | error e => simp [dgStageH, hc, hpd] at hs
    | ok p2 =>
      obtain ⟨a, h2⟩ := p2
      obtain ⟨hle2, _⟩ := hpopDict_heapLe hle1 hmn hpd
      cases hsk : hsetDict h2 m "kind" a with
      | error e => simp [dgStageH, hc, hpd, hsk] at hs
      | ok h3 =>
        obtain ⟨hle3, _⟩ := hsetDict_heapLe hle2 hmn hsk
        by_cases hpc : isPatternClassH a = true
        · simp only [dgStageH, hc, hpd, hsk, hpc, if_true, Except.ok.injEq,
            Prod.mk.injEq] at hs
          rw [← hs.1]
          exact hle3
        · simp only [Bool.not_eq_true] at hpc
          cases hpm : popManyH sixDropFields h3 m with
          | error e => simp [dgStageH, hc, hpd, hsk, hpc, hpm] at hs
          | ok h4 =>
            obtain ⟨hle4, _⟩ := popManyH_heapLe sixDropFields h3 h4 hle3 hmn hpm
            cases hks : hkeys h4 v with
            | error e => simp [dgStageH, hc, hpd, hsk, hpc, hpm, hks] at hs
            | ok ks =>
              cases hdd : dropDataladH ks h4 m with
              | error e => simp [dgStageH, hc, hpd, hsk, hpc, hpm, hks, hdd] at hs
              | ok h5 =>
                obtain ⟨hle5, _⟩ := dropDataladH_heapLe ks h4 h5 hle4 hmn hdd
                simp only [dgStageH, hc, hpd, hsk, hpc, hpm, hks, hdd,
                  Bool.false_eq_true, if_false, Except.ok.injEq, Prod.mk.injEq] at hs
                rw [← hs.1]
                exact hle5

theorem classKindStageH_heapLe {h h' : Heap} {v : HVal} {n : Nat}
    (hs : classKindStageH h v = .ok (h', n)) : heapLe h h' := by
  cases hc : hcopy h v with
  | error e => simp [classKindStageH, hc] at hs
  | ok p =>
    obtain ⟨h1, m⟩ := p
    obtain ⟨hle1, hm, _⟩ := hcopy_ok hc
    have hmn : h.length ≤ m := by rw [hm]
    cases hpd : hpopDict h1 m "class" with
    | error e => simp [classKindStageH, hc, hpd] at hs
    | ok p2 =>
      obtain ⟨b, h2⟩ := p2
      obtain ⟨hle2, _⟩ := hpopDict_heapLe hle1 hmn hpd
      cases hsk : hsetDict h2 m "kind" b with
      | error e => simp [classKindStageH, hc, hpd, hsk] at hs
      | ok h3 =>
        obtain ⟨hle3, _⟩ := hsetDict_heapLe hle2 hmn hsk
        simp only [classKindStageH, hc, hpd, hsk, Except.ok.injEq,
          Prod.mk.injEq] at hs
        rw [← hs.1]
        exact hle3

theorem markerStageH_heapLe {h h' : Heap} {v : HVal} {ml mn : Nat}
    (hs : markerStageH h v = .ok (h', ml, mn)) : heapLe h h' := by
  have hle0 : heapLe h (h ++ [HObj.hlist []]) := heapLe_alloc h _
  have hml : h.length ≤ h.length := Nat.le_refl _
  cases hc : hcopy (h ++ [HObj.hlist []]) v with
  | error e => simp [markerStageH, halloc, hc] at hs
  | ok p =>
    obtain ⟨h1, m⟩ := p
    obtain ⟨hle1, hm, _⟩ := hcopy_ok hc
    have hmn' : h.length ≤ m := by
      rw [hm]
      simp
    cases happ : hlistAppend h1 h.length (.ref m) with
    | error e => simp [markerStageH, halloc, hc, happ] at hs
    | ok h2 =>
      obtain ⟨hle2, _⟩ := hlistAppend_heapLe (heapLe_trans hle0 hle1) hml happ
      cases hpd : hpopDict h2 m "class" with
      | error e => simp [markerStageH, halloc, hc, happ, hpd] at hs
      | ok p2 =>
        obtain ⟨c, h3⟩ := p2
        obtain ⟨hle3, _⟩ := hpopDict_heapLe hle2 hmn' hpd
        cases hsk : hsetDict h3 m "kind" c with
        | error e => simp [markerStageH, halloc, hc, happ, hpd, hsk] at hs
        | ok h4 =>
          obtain ⟨hle4, _⟩ := hsetDict_heapLe hle3 hmn' hsk
          cases hg : hget h4 m with
          | error e => simp [markerStageH, halloc, hc, happ, hpd, hsk, hg] at hs
          | ok o =>
            cases o with
            | hlist items =>
              simp [markerStageH, halloc, hc, happ, hpd, hsk, hg] at hs
            | hdict me =>
              cases ha : alookup me "masks" with
              | none =>
                simp [markerStageH, halloc, hc, happ, hpd, hsk, hg, ha] at hs
              | some w =>
                cases w with
                | prim pw =>
                  cases pw with
                  | null =>
                    cases hpm : hpopDict h4 m "masks" with
                    | error e =>
                      simp [markerStageH, halloc, hc, happ, hpd, hsk, hg, ha,
                        hpm] at hs
                    | ok p3 =>
                      obtain ⟨w2, h5⟩ := p3
                      obtain ⟨hle5, _⟩ := hpopDict_heapLe hle4 hmn' hpm
                      simp only [markerStageH, halloc, hc, happ, hpd, hsk, hg, ha,
                        hpm, Except.ok.injEq, Prod.mk.injEq] at hs
                      rw [← hs.1]
                      exact hle5
                  | str s =>
                    simp only [markerStageH, halloc, hc, happ, hpd, hsk, hg, ha,
                      Except.ok.injEq, Prod.mk.injEq] at hs
                    rw [← hs.1]
                    exact hle4
                  | int i =>
                    simp only [markerStageH, halloc, hc, happ, hpd, hsk, hg, ha,
                      Except.ok.injEq, Prod.mk.injEq] at hs
                    rw [← hs.1]
                    exact hle4
                  | bool b =>
                    simp only [markerStageH, halloc, hc, happ, hpd, hsk, hg, ha,
                      Except.ok.injEq, Prod.mk.injEq] at hs
                    rw [← hs.1]
                    exact hle4
                  | list xs =>
                    simp only [markerStageH, halloc, hc, happ, hpd, hsk, hg, ha,
                      Except.ok.injEq, Prod.mk.injEq] at hs
                    rw [← hs.1]
                    exact hle4
                  | map mm =>
                    simp only [markerStageH, halloc, hc, happ, hpd, hsk, hg, ha,
                      Except.ok.injEq, Prod.mk.injEq] at hs
                    rw [← hs.1]
                    exact hle4
                | ref r =>
                  simp only [markerStageH, halloc, hc, happ, hpd, hsk, hg, ha,
                    Except.ok.injEq, Prod.mk.injEq] at hs
                  rw [← hs.1]
                  exact hle4

theorem withStageH_heapLe {h h' : Heap} {entries y y' : List (String × HVal)}
    (hs : withStageH h entries y = .ok (h', y')) : heapLe h h' := by
  cases hwv : alookup entries "with" with
  | none =>
    simp only [withStageH, hwv, Except.ok.injEq, Prod.mk.injEq] at hs
    rw [← hs.1]
    exact heapLe_refl h
  | some w =>
    cases hc : hcopy h w with
    | error e => simp [withStageH, hwv, hc] at hs
    | ok p =>
      obtain ⟨h1, wn⟩ := p
      simp only [withStageH, hwv, hc, Except.ok.injEq, Prod.mk.injEq] at hs
      rw [← hs.1]
      exact (hcopy_ok hc).1

theorem preStageH_heapLe {h h' : Heap} {entries y y' : List (String × HVal)}
    (hs : preStageH h entries y = .ok (h', y')) : heapLe h h' := by
  cases hpv : alookup entries "preprocess" with
  | none =>
    simp only [preStageH, hpv, Except.ok.injEq, Prod.mk.injEq] at hs
    rw [← hs.1]
    exact heapLe_refl h
  | some pv =>
    cases hck : classKindStageH h pv with
    | error e => simp [preStageH, hpv, hck] at hs
    | ok p =>
      obtain ⟨h3, pn⟩ := p
      simp only [preStageH, hpv, hck, Except.ok.injEq, Prod.mk.injEq] at hs
      rw [← hs.1]
      exact classKindStageH_heapLe hck

/-- C9: a successful `_feature_yaml_from_meta` never mutates its input
record: every heap cell that existed before the call — the record dict and
all of its sub-objects — is byte-identical afterwards, because every
sub-mapping the function rewrites (`with`, `datagrabber`, `preprocess`,
`marker`) is copied into a fresh cell before any key is removed or
renamed. -/
theorem c9_synthesis_never_mutates_record (h : Heap) (dataRef : Nat)
    (h' : Heap) (y : List (String × HVal))
    (hrun : featureYamlFromMetaH h dataRef = .ok (h', y)) :
    ∀ i, i < h.length → h'.get? i = h.get? i := by
  suffices hle : heapLe h h' from hle.2
  cases hg : hget h dataRef with
  | error e => simp [featureYamlFromMetaH, hg] at hrun
  | ok o =>
    cases o with
    | hlist items => simp [featureYamlFromMetaH, hg] at hrun
    | hdict entries =>
      cases hws : withStageH h entries [("workdir", HVal.prim (.str ""))] with
      | error e => simp [featureYamlFromMetaH, hg, hws] at hrun
      | ok p1 =>
        obtain ⟨h1, y1⟩ := p1
        have hle1 : heapLe h h1 := withStageH_heapLe hws
        cases hdgv : alookup entries "datagrabber" with
        | none => simp [featureYamlFromMetaH, hg, hws, hdgv] at hrun
        | some dgv =>
          cases hdg : dgStageH h1 dgv with
          | error e => simp [featureYamlFromMetaH, hg, hws, hdgv, hdg] at hrun
          | ok p2 =>
            obtain ⟨h2, dgn⟩ := p2
            have hle2 : heapLe h h2 := heapLe_trans hle1 (dgStageH_heapLe hdg)
            cases hpre : preStageH h2 entries (aset y1 "datagrabber" (.ref dgn)) with
            | error e =>
              simp [featureYamlFromMetaH, hg, hws, hdgv, hdg, hpre] at hrun
            | ok p3 =>
              obtain ⟨h3, y3⟩ := p3
              have hle3 : heapLe h h3 := heapLe_trans hle2 (preStageH_heapLe hpre)
              cases hmv : alookup entries "marker" with
              | none =>
                simp [featureYamlFromMetaH, hg, hws, hdgv, hdg, hpre, hmv] at hrun
              | some mv =>
                cases hms : markerStageH h3 mv with
                | error e =>
                  simp [featureYamlFromMetaH, hg, hws, hdgv, hdg, hpre, hmv,
                    hms] at hrun
                | ok p4 =>
                  obtain ⟨h4, ml, mn⟩ := p4
                  have hle4 : heapLe h h4 :=
                    heapLe_trans hle3 (markerStageH_heapLe hms)
                  cases hnm : alookup entries "name" with
                  | none =>
                    simp [featureYamlFromMetaH, hg, hws, hdgv, hdg, hpre, hmv,
                      hms, halloc, hnm] at hrun
                  | some nm =>
                    simp only [featureYamlFromMetaH, hg, hws, hdgv, hdg, hpre,
                      hmv, hms, halloc, hnm, Except.ok.injEq, Prod.mk.injEq] at hrun
                    rw [← hrun.1]
                    exact heapLe_trans hle4
                      (heapLe_trans (heapLe_alloc h4 _) (heapLe_alloc _ _))

/-- A concrete heap: the record at cell 0, its datagrabber at cell 1, its
marker at cell 2. -/
def heapEx : Heap := [
  .hdict [("name", .prim (.str "f")), ("datagrabber", .ref 1), ("marker", .ref 2)],
  .hdict [("class", .prim (.str "PatternDataGrabber"))],
  .hdict [("class", .prim (.str "M")), ("masks", .prim .null)]]

/-- The heap after running synthesis on `heapEx`: cells 0-2 unchanged, fresh
cells 3-7 hold the recipe's sub-objects. -/
def heapExOut : Heap := [
  .hdict [("name", .prim (.str "f")), ("datagrabber", .ref 1), ("marker", .ref 2)],
  .hdict [("class", .prim (.str "PatternDataGrabber"))],
  .hdict [("class", .prim (.str "M")), ("masks", .prim .null)],
  .hdict [("kind", .prim (.str "PatternDataGrabber"))],
  .hlist [.ref 5],
  .hdict [("kind", .prim (.str "M"))],
  .hdict [("kind", .prim (.str "HDF5FeatureStorage")), ("uri", .prim (.str ""))],
  .hdict [("jobname", .prim (.str "f")), ("kind", .prim (.str ""))]]

/-- The recipe entry list produced from `heapEx`. -/
def yExOut : List (String × HVal) :=
  [("workdir", .prim (.str "")), ("datagrabber", .ref 3), ("markers", .ref 4),
   ("storage", .ref 6), ("queue", .ref 7)]

/-- C9 witness: the concrete run succeeds and leaves the record's own cells
(0, 1 and 2) untouched. -/
theorem c9_synthesis_never_mutates_record_witness :
    featureYamlFromMetaH heapEx 0 = .ok (heapExOut, yExOut) ∧
      heapExOut.get? 0 = heapEx.get? 0 ∧
      heapExOut.get? 1 = heapEx.get? 1 ∧
      heapExOut.get? 2 = heapEx.get? 2 :=
  ⟨rfl,
   c9_synthesis_never_mutates_record heapEx 0 heapExOut yExOut rfl 0 (by decide),
   c9_synthesis_never_mutates_record heapEx 0 heapExOut yExOut rfl 1 (by decide),
   c9_synthesis_never_mutates_record heapEx 0 heapExOut yExOut rfl 2 (by decide)⟩

end Julio
